import Mathlib

/-!
# Verification of the streaming canvas-artifact subsystem

A shallow embedding of the canvas artifact parser, the lifecycle store
callbacks, and the offline restoration pass of the repository, with
theorems settling the frozen claims about them.

Source files embedded:
* `src/app/canvas/canvas-parser-constants.ts` (tag literals, attribute
  parsing, XML escape/unescape),
* `src/app/canvas/CanvasArtifactParser.ts` (the incremental scanner),
* `src/app/hooks/useSendMessage.ts` (the parser callbacks feeding the store),
* the `CanvasStore` class (`setArtifact` / `getArtifact` /
  `restoreArtifactsFromMessage` / `restoreArtifactsFromMessages`).

Modelling conventions:
* JavaScript strings are `List Char`; all indices are code-unit indices.
  The inputs exercised here are ASCII, where one JS UTF-16 code unit is one
  `Char`.
* Case-insensitive matching (`/i` regexes, `toLowerCase`) is modelled by
  per-character ASCII lowering (`Char.toLower`), which agrees with
  JavaScript on every ASCII string.
* `Date.now()` / `new Date()` values are `Nat` timestamps supplied by the
  caller (one per callback invocation / restore run), so that facts about
  `createdAt` / `updatedAt` can be stated without a real clock.
* `JSON.parse` of a config body happens downstream of the parser; the
  embedding carries the raw config text (`Option (List Char)`), leaving
  JSON semantics external.  No claim below depends on JSON parsing.
-/

/-- Characters used instead of quote literals, to keep the source readable. -/
def dquoteC : Char := Char.ofNat 34

/-- The single-quote character. -/
def squoteC : Char := Char.ofNat 39

/-- ASCII lowering of a whole string, modelling `toLowerCase` / `/i`
matching on ASCII text. -/
def lowerL (s : List Char) : List Char := s.map Char.toLower

/-- `content.slice(a, b)` of JavaScript for in-range `a ≤ b` (and, as in JS,
an empty result when `b ≤ a` or `a` is past the end). -/
def jsSlice (s : List Char) (a b : Nat) : List Char := (s.drop a).take (b - a)

/-- `x || d` of JavaScript on strings: the empty string is falsy. -/
def jsOr (x d : List Char) : List Char := if x = [] then d else x

/-- JavaScript `-1`-style index: `some i` becomes `i`, `none` becomes `-1`,
used where the source compares raw indices. -/
def jsIdx (o : Option Nat) : Int :=
  match o with
  | none => -1
  | some n => (n : Int)

/-! ## Tag literals (`canvas-parser-constants.ts`) -/

def ARTIFACT_TAG_OPEN : List Char := "<canvasArtifact".toList
def ARTIFACT_TAG_CLOSE : List Char := "</canvasArtifact>".toList
def CODE_TAG_OPEN : List Char := "<canvasCode".toList
def CODE_TAG_CLOSE : List Char := "</canvasCode>".toList
def CONFIG_TAG_OPEN : List Char := "<canvasConfig>".toList
def CONFIG_TAG_CLOSE : List Char := "</canvasConfig>".toList

/-! ## Tag grammar primitives -/

/-- Does the (case-insensitively lowered) tag occur at index `i` of `c`?
Mirrors a successful anchored match of the escaped literal with the `i`
flag. -/
def isTagAt (c : List Char) (i : Nat) (tag : List Char) : Bool :=
  lowerL ((c.drop i).take tag.length) = lowerL tag

/-- Scan `c` for the first occurrence of `tag` at an index `≥ i`,
with `fuel` bounding the scan. -/
def findTagIdxAux (c tag : List Char) : Nat → Nat → Option Nat
  | _, 0 => none
  | i, fuel + 1 =>
    if isTagAt c i tag then some i else findTagIdxAux c tag (i + 1) fuel

/-- `findTagIndex(content, startPos, tag)` of `CanvasArtifactParser`:
index of the first case-insensitive occurrence of the literal `tag` at or
after `startPos` (`none` for the source's `-1`). -/
def findTagIndex (c : List Char) (startPos : Nat) (tag : List Char) : Option Nat :=
  findTagIdxAux c tag startPos (c.length + 1 - startPos)

/-- `findTagEnd(content, startPos)`: index of the first `>` at or after
`startPos` (`none` for `-1`). -/
def findTagEnd (c : List Char) (startPos : Nat) : Option Nat :=
  ((c.drop startPos).findIdx? (fun ch => ch = '>')).map (· + startPos)

/-- The inner loop of `getPartialTagStart`: try suffix lengths `len`,
`len - 1`, …, `1`; `start = c.length - len` must be `≥ startPos` and the
suffix must equal the first `len` characters of the tag (lowered). -/
def getPartialAux (c tag : List Char) (startPos : Nat) : Nat → Option Nat
  | 0 => none
  | len + 1 =>
    let start := c.length - (len + 1)
    if start < startPos then getPartialAux c tag startPos len
    else if lowerL (c.drop start) = lowerL (tag.take (len + 1)) then some start
    else getPartialAux c tag startPos len

/-- `getPartialTagStart(content, startPos, tag)`: the start of the longest
strict prefix of `tag` that ends the buffer (at or after `startPos`),
`none` for the source's `-1`. -/
def getPartialTagStart (c : List Char) (startPos : Nat) (tag : List Char) : Option Nat :=
  getPartialAux c tag startPos (min (tag.length - 1) (c.length - startPos))

/-! ## Attribute parsing (`parseAttributes`, regex `(\w+)=["']([^"']*)["']`) -/

/-- JavaScript regex `\w`. -/
def isWordChar (ch : Char) : Bool :=
  ch.isAlpha || ch.isDigit || ch = '_'

/-- A quote character (either kind), as in the regex classes `["']`. -/
def isQuoteChar (ch : Char) : Bool := ch = dquoteC || ch = squoteC

/-- Try to match `(\w+)=["']([^"']*)["']` at the start of `s`; on success
return the key, the value and the remainder after the closing quote.
Maximal-munch on `\w+` and `[^"']*` is exact here because the characters
that follow them in the pattern (`=`, a quote) are excluded from the
classes, so the regex engine's backtracking never helps. -/
def attrMatchHere (s : List Char) : Option (List Char × List Char × List Char) :=
  let key := s.takeWhile isWordChar
  let rest := s.dropWhile isWordChar
  if key = [] then none
  else
    match rest with
    | '=' :: q :: rest2 =>
      if isQuoteChar q then
        let v := rest2.takeWhile (fun ch => !isQuoteChar ch)
        match rest2.dropWhile (fun ch => !isQuoteChar ch) with
        | _ :: rest3 => some (key, v, rest3)
        | [] => none
      else none
    | _ => none

/-- The `exec` loop of `parseAttributes`: scan left to right, collecting
every match of the attribute pattern. -/
def parseAttrsAux : List Char → Nat → List (List Char × List Char)
  | _, 0 => []
  | s, fuel + 1 =>
    match s with
    | [] => []
    | _ :: tl =>
      match attrMatchHere s with
      | some (k, v, rest) => (k, v) :: parseAttrsAux rest fuel
      | none => parseAttrsAux tl fuel

/-- `parseAttributes(attrString)`: the key/value pairs in match order. -/
def parseAttributes (s : List Char) : List (List Char × List Char) :=
  parseAttrsAux s (s.length + 1)

/-- Reading `result[key]` after the `exec` loop: the **last** match wins
(later assignments overwrite), absent keys read as `undefined` (here the
empty string, which is equally falsy in the source's checks). -/
def attrGet (attrs : List (List Char × List Char)) (key : List Char) : List Char :=
  match attrs.reverse.find? (fun kv => kv.1 = key) with
  | some kv => kv.2
  | none => []

/-! ## XML escape / unescape (`unescapeXML`, `escapeXML`) -/

/-- The entity body (after a `&`) that the unescape regex accepts at the
head of `r`: the replacement character and the remainder after the `;`. -/
def entityHere : List Char → Option (Char × List Char)
  | 'l' :: 't' :: ';' :: r2 => some ('<', r2)
  | 'g' :: 't' :: ';' :: r2 => some ('>', r2)
  | 'a' :: 'm' :: 'p' :: ';' :: r2 => some ('&', r2)
  | 'q' :: 'u' :: 'o' :: 't' :: ';' :: r2 => some (Char.ofNat 34, r2)
  | 'a' :: 'p' :: 'o' :: 's' :: ';' :: r2 => some (Char.ofNat 39, r2)
  | '#' :: '3' :: '9' :: ';' :: r2 => some (Char.ofNat 39, r2)
  | _ => none

/-- The left-to-right scan of `unescapeXML`'s `replace`: at a `&` that
heads a recognized entity, emit the replacement and continue after it; any
other character (including an unmatched `&`) is kept.  The fuel only
bounds the recursion; every step consumes at least one character, so
`s.length` suffices. -/
def unescapeAux : Nat → List Char → List Char
  | 0, _ => []
  | _ + 1, [] => []
  | fuel + 1, c :: r =>
    if c = '&' then
      match entityHere r with
      | some (ch, r2) => ch :: unescapeAux fuel r2
      | none => c :: unescapeAux fuel r
    else c :: unescapeAux fuel r

def unescapeXML (s : List Char) : List Char := unescapeAux s.length s

/-- `escapeXML`: per-character replacement of `< > & " '` through
`REVERSE_ESCAPE_MAP`. -/
def escapeChar (c : Char) : List Char :=
  if c = '<' then "&lt;".toList
  else if c = '>' then "&gt;".toList
  else if c = '&' then "&amp;".toList
  else if c = dquoteC then "&quot;".toList
  else if c = squoteC then "&#39;".toList
  else [c]

def escapeXML (s : List Char) : List Char := s.flatMap escapeChar

/-! ## Parser data model (`canvas-types.ts` / `CanvasArtifactParser.ts`) -/

/-- The in-progress artifact of a `ParserState` (`currentArtifact`). -/
structure CurArtifact where
  id : List Char
  type : List Char
  title : List Char
deriving DecidableEq, Repr

/-- The in-progress code block of a `ParserState` (`currentCode`). -/
structure CurCode where
  language : List Char
  content : List Char
  startPosition : Nat
deriving DecidableEq, Repr

/-- The in-progress config block of a `ParserState` (`currentConfig`). -/
structure CurConfig where
  content : List Char
deriving DecidableEq, Repr

/-- One message's `ParserState`. -/
structure ParserState where
  position : Nat
  insideArtifact : Bool
  insideCode : Bool
  insideConfig : Bool
  currentArtifact : Option CurArtifact
  currentCode : Option CurCode
  currentConfig : Option CurConfig
  fullContent : List Char
  messageId : List Char
deriving DecidableEq, Repr

/-- The fresh state installed by `getState` on a message's first fragment. -/
def initState (mid : List Char) : ParserState :=
  { position := 0, insideArtifact := false, insideCode := false, insideConfig := false
    currentArtifact := none, currentCode := none, currentConfig := none
    fullContent := [], messageId := mid }

/-- The parser's callback surface, as an event trace: each constructor is
one callback invocation with its payload.  `artifactComplete` carries the
full completion payload (the config field holds the raw config text handed
to `JSON.parse` downstream, `none` when absent or empty). -/
inductive PEvent where
  | artifactStart (id type title messageId : List Char)
  | codeUpdate (messageId artifactId language content : List Char)
  | codeComplete (language content : List Char)
  | artifactComplete (id type title codeLanguage codeContent : List Char)
      (config : Option (List Char)) (messageId : List Char)
  | error (message : List Char) (position : Nat) (context : List Char)
deriving DecidableEq, Repr

/-- Result shape of `parseArtifactStart`. -/
structure ArtifactStartResult where
  success : Bool
  endPos : Nat
  attributes : Option (List (List Char × List Char))
  tagStart : Option Nat
  incomplete : Bool

def errMissingAttrs : List Char :=
  "Missing required attributes (id, type, or title)".toList

def errInvalidType (t : List Char) : List Char :=
  "Invalid type: \"".toList ++ t ++
    "\". Only \"react\" and \"component\" are supported.".toList

/-- `parseArtifactStart(content, startPos)`, also yielding the `onError`
event it fires on a malformed tag. -/
def parseArtifactStart (content : List Char) (startPos : Nat) :
    ArtifactStartResult × Option PEvent :=
  match findTagIndex content startPos ARTIFACT_TAG_OPEN with
  | none => (⟨false, startPos, none, none, false⟩, none)
  | some tagStart =>
    match findTagEnd content (tagStart + ARTIFACT_TAG_OPEN.length) with
    | none => (⟨false, tagStart, none, some tagStart, true⟩, none)
    | some tagEnd =>
      let attrString := jsSlice content (tagStart + ARTIFACT_TAG_OPEN.length) tagEnd
      let attributes := parseAttributes attrString
      if attrGet attributes "id".toList = [] ∨ attrGet attributes "type".toList = [] ∨
          attrGet attributes "title".toList = [] then
        (⟨false, tagEnd + 1, none, none, false⟩,
          some (.error errMissingAttrs tagStart (jsSlice content tagStart (tagEnd + 1))))
      else if attrGet attributes "type".toList ≠ "react".toList ∧
          attrGet attributes "type".toList ≠ "component".toList then
        (⟨false, tagEnd + 1, none, none, false⟩,
          some (.error (errInvalidType (attrGet attributes "type".toList)) tagStart
            (jsSlice content tagStart (tagEnd + 1))))
      else
        (⟨true, tagEnd + 1, some attributes, none, false⟩, none)

/-- Result shape of `parseCodeStart`. -/
structure CodeStartResult where
  success : Bool
  endPos : Nat
  language : List Char
  tagStart : Option Nat
  incomplete : Bool

/-- `parseCodeStart(content, startPos)`. -/
def parseCodeStart (content : List Char) (startPos : Nat) : CodeStartResult :=
  match findTagIndex content startPos CODE_TAG_OPEN with
  | none => ⟨false, startPos, "jsx".toList, none, false⟩
  | some tagStart =>
    match findTagEnd content (tagStart + CODE_TAG_OPEN.length) with
    | none => ⟨false, tagStart, "jsx".toList, some tagStart, true⟩
    | some tagEnd =>
      let attrString := jsSlice content (tagStart + CODE_TAG_OPEN.length) tagEnd
      let attributes := parseAttributes attrString
      ⟨true, tagEnd + 1, jsOr (attrGet attributes "language".toList) "jsx".toList, none, false⟩

/-- `completeArtifact(messageId, state)`: emit `onArtifactComplete` (when an
artifact is in progress) and reset the per-artifact sub-state. -/
def completeArtifact (mid : List Char) (st : ParserState) (evs : List PEvent) :
    ParserState × List PEvent :=
  match st.currentArtifact with
  | none => (st, evs)
  | some ca =>
    let config : Option (List Char) :=
      match st.currentConfig with
      | some cfg => if cfg.content ≠ [] then some cfg.content else none
      | none => none
    let ev := PEvent.artifactComplete ca.id ca.type ca.title
      (jsOr (match st.currentCode with | some cc => cc.language | none => []) "jsx".toList)
      (match st.currentCode with | some cc => cc.content | none => [])
      config mid
    ({ st with insideArtifact := false, insideCode := false, insideConfig := false
               currentArtifact := none, currentCode := none, currentConfig := none },
      evs ++ [ev])

/-- JavaScript `\s` (the whitespace characters relevant to `/\S/`):
ASCII whitespace plus NBSP and the BOM. -/
def isJsSpace (c : Char) : Bool :=
  c = ' ' || c = Char.ofNat 9 || c = Char.ofNat 10 || c = Char.ofNat 11 ||
  c = Char.ofNat 12 || c = Char.ofNat 13 || c = Char.ofNat 160 || c = Char.ofNat 65279

/-- Result of one iteration of the `while` loop: `inl` is a `break` with
the final cursor, state and events; `inr` is a `continue`. -/
abbrev LoopStep := Sum (Nat × ParserState × List PEvent) (Nat × ParserState × List PEvent)

/-- State 1 of the loop (not inside an artifact): look for the open tag. -/
def searchingIter (mid content : List Char) (pos : Nat) (st : ParserState)
    (evs : List PEvent) : LoopStep :=
  let pr := parseArtifactStart content pos
  let r := pr.1
  let evs := evs ++ pr.2.toList
  if !r.success then
    if r.incomplete then .inl (r.tagStart.getD pos, st, evs)
    else if pos < r.endPos then .inr (r.endPos, st, evs)
    else
      let ps := getPartialTagStart content 0 ARTIFACT_TAG_OPEN
      .inl (ps.getD content.length, st, evs)
  else
    let attrs := r.attributes.getD []
    let aid := attrGet attrs "id".toList
    let atype := attrGet attrs "type".toList
    let atitle := attrGet attrs "title".toList
    .inr (r.endPos,
      { st with currentArtifact := some ⟨aid, atype, atitle⟩, insideArtifact := true },
      evs ++ [PEvent.artifactStart aid atype atitle mid])

/-- State 2 of the loop (inside an artifact, outside code/config): look
for the code-open tag, a config-open tag before the artifact close, or the
artifact close. -/
def artifactIter (mid content : List Char) (pos : Nat) (st : ParserState)
    (evs : List PEvent) : LoopStep :=
  let cr := parseCodeStart content pos
  if cr.incomplete then .inl (cr.tagStart.getD pos, st, evs)
  else if cr.success then
    .inr (cr.endPos,
      { st with currentCode := some ⟨jsOr cr.language "jsx".toList, [], cr.endPos⟩,
                insideCode := true }, evs)
  else
    let configStart := findTagIndex content pos CONFIG_TAG_OPEN
    if jsIdx configStart ≠ -1 ∧
        jsIdx configStart < jsIdx (findTagIndex content pos ARTIFACT_TAG_CLOSE) then
      .inr (configStart.getD 0 + CONFIG_TAG_OPEN.length,
        { st with currentConfig := some ⟨[]⟩, insideConfig := true }, evs)
    else
      match findTagIndex content pos ARTIFACT_TAG_CLOSE with
      | some artifactEnd =>
        let (st2, evs2) := completeArtifact mid st evs
        .inr (artifactEnd + ARTIFACT_TAG_CLOSE.length, st2, evs2)
      | none =>
        let partialStarts := [getPartialTagStart content 0 CODE_TAG_OPEN,
          getPartialTagStart content 0 CONFIG_TAG_OPEN,
          getPartialTagStart content 0 ARTIFACT_TAG_CLOSE].filterMap id
        match partialStarts.min? with
        | some m => .inl (m, st, evs)
        | none => .inl (content.length, st, evs)

/-- State 3 of the loop (inside a code block): accumulate and report code,
or close it — and on a close, immediately look for the artifact close. -/
def codeIter (mid content : List Char) (pos : Nat) (st : ParserState)
    (evs : List PEvent) : LoopStep :=
  match findTagIndex content pos CODE_TAG_CLOSE with
  | none =>
    let (st2, evs2) :=
      match st.currentCode, st.currentArtifact with
      | some cc, some ca =>
        let pcs := getPartialTagStart content cc.startPosition CODE_TAG_CLOSE
        let currentContent := jsSlice content cc.startPosition (pcs.getD content.length)
        ({ st with currentCode := some { cc with content := currentContent } },
          evs ++ [PEvent.codeUpdate mid ca.id cc.language (unescapeXML currentContent)])
      | _, _ => (st, evs)
    let pcs2 := getPartialTagStart content
      (match st2.currentCode with | some cc => cc.startPosition | none => 0)
      CODE_TAG_CLOSE
    .inl (pcs2.getD content.length, st2, evs2)
  | some codeEnd =>
    let (st2, evs2) :=
      match st.currentCode with
      | some cc =>
        let codeContent := jsSlice content cc.startPosition codeEnd
        ({ st with currentCode := some { cc with content := unescapeXML codeContent } },
          evs ++ [PEvent.codeComplete cc.language (unescapeXML codeContent)])
      | none => (st, evs)
    let st3 := { st2 with insideCode := false }
    let pos2 := codeEnd + CODE_TAG_CLOSE.length
    let nextPos : Nat :=
      match (content.drop pos2).findIdx? (fun ch => !isJsSpace ch) with
      | some k => pos2 + k
      | none => pos2 - 1
    match findTagIndex content nextPos ARTIFACT_TAG_CLOSE with
    | some artifactEnd =>
      let (st4, evs3) := completeArtifact mid st3 evs2
      .inr (artifactEnd + ARTIFACT_TAG_CLOSE.length, st4, evs3)
    | none => .inr (pos2, st3, evs2)

/-- State 4 of the loop (inside a config block): accumulate raw config
text until the config close; on a close, check for an artifact close
directly at the cursor. -/
def configIter (mid content : List Char) (pos : Nat) (st : ParserState)
    (evs : List PEvent) : LoopStep :=
  match findTagIndex content pos CONFIG_TAG_CLOSE with
  | none =>
    let st2 :=
      match st.currentConfig with
      | some _ => { st with currentConfig := some ⟨jsSlice content pos content.length⟩ }
      | none => st
    let pcs := getPartialTagStart content 0 CONFIG_TAG_CLOSE
    .inl (pcs.getD content.length, st2, evs)
  | some configEnd =>
    let st2 :=
      match st.currentConfig with
      | some _ => { st with currentConfig := some ⟨jsSlice content pos configEnd⟩ }
      | none => st
    let st3 := { st2 with insideConfig := false }
    let pos2 := configEnd + CONFIG_TAG_CLOSE.length
    match findTagIndex content pos2 ARTIFACT_TAG_CLOSE with
    | some artifactEnd =>
      if artifactEnd = pos2 then
        let (st4, evs2) := completeArtifact mid st3 evs
        .inr (artifactEnd + ARTIFACT_TAG_CLOSE.length, st4, evs2)
      else .inr (pos2, st3, evs)
    | none => .inr (pos2, st3, evs)

/-- One iteration of the loop: dispatch on the state flags exactly as the
source's four `if` guards do (each guard's body ends in `continue` or
`break`, so the sequential `if`s form this chain; when no artifact is
open the two sub-flags are reset, so the chain is exhaustive). -/
def loopIter (mid content : List Char) (pos : Nat) (st : ParserState)
    (evs : List PEvent) : LoopStep :=
  if !st.insideArtifact then searchingIter mid content pos st evs
  else if st.insideArtifact && !st.insideCode && !st.insideConfig then
    artifactIter mid content pos st evs
  else if st.insideCode then codeIter mid content pos st evs
  else configIter mid content pos st evs

/-- The `while (pos < content.length)` loop of `parse`, one iteration per
fuel unit; returns the final cursor, state and the events emitted. -/
def parseLoop (mid content : List Char) :
    Nat → ParserState → List PEvent → Nat → Nat × ParserState × List PEvent
  | pos, st, evs, 0 => (pos, st, evs)
  | pos, st, evs, fuel + 1 =>
    if pos < content.length then
      match loopIter mid content pos st evs with
      | .inl r => r
      | .inr (pos2, st2, evs2) => parseLoop mid content pos2 st2 evs2 fuel
    else (pos, st, evs)

/-- `parse(messageId, newContent)` on one message's state: append the
fragment to the buffer, run the loop from the saved cursor, save the new
cursor.  The returned event list is the callback trace of this call. -/
def parse (st : ParserState) (newContent : List Char) : ParserState × List PEvent :=
  let full := st.fullContent ++ newContent
  let (pos, st2, evs) :=
    parseLoop st.messageId full st.position { st with fullContent := full } []
      (full.length + 1)
  ({ st2 with position := pos }, evs)

/-- Feed a list of fragments to a fresh state, accumulating all events. -/
def runStep (acc : ParserState × List PEvent) (f : List Char) :
    ParserState × List PEvent :=
  let (st, evs) := parse acc.1 f
  (st, acc.2 ++ evs)

/-- Feed a list of fragments to a fresh state, one `parse` call each,
accumulating all events. -/
def runFragments (mid : List Char) (frags : List (List Char)) :
    ParserState × List PEvent :=
  frags.foldl runStep (initState mid, [])

def PEvent.isArtifactComplete : PEvent → Bool
  | .artifactComplete .. => true
  | _ => false

def PEvent.isArtifactStart : PEvent → Bool
  | .artifactStart .. => true
  | _ => false

def PEvent.isCodeUpdate : PEvent → Bool
  | .codeUpdate .. => true
  | _ => false

def PEvent.isCodeComplete : PEvent → Bool
  | .codeComplete .. => true
  | _ => false

def PEvent.isErrorEvent : PEvent → Bool
  | .error .. => true
  | _ => false

/-- The final `onArtifactComplete` payloads of a trace. -/
def completionsOf (evs : List PEvent) : List PEvent :=
  evs.filter PEvent.isArtifactComplete

/-! ## Artifact lifecycle store (`CanvasStore` + `useSendMessage` callbacks) -/

/-- A `CanvasArtifact` record as held by the store (the execution-result
field set by the external sandbox is out of scope).  `type` and `status`
are carried as strings, exactly the enum literals of the source. -/
structure StoreArtifact where
  id : List Char
  type : List Char
  title : List Char
  codeLanguage : List Char
  codeContent : List Char
  config : Option (List Char)
  status : List Char
  isStreaming : Bool
  messageId : List Char
  sessionId : List Char
  currentVersion : Nat
  createdAt : Nat
  updatedAt : Nat
deriving DecidableEq, Repr

/-- The store's registry `Map<messageId, Map<artifactId, CanvasArtifact>>`,
flattened to a lookup function (the nested maps have no other observable
content). -/
def CanvasStoreMap : Type := List Char → List Char → Option StoreArtifact

/-- The empty registry. -/
def emptyStore : CanvasStoreMap := fun _ _ => none

/-- `CanvasStore.setArtifact(messageId, artifact)`: keyed by the message id
and the artifact's own `id` field. -/
def setArtifact (s : CanvasStoreMap) (mid : List Char) (a : StoreArtifact) :
    CanvasStoreMap :=
  fun m i => if m = mid ∧ i = a.id then some a else s m i

/-- `CanvasStore.getArtifact(messageId, artifactId)`. -/
def getArtifact (s : CanvasStoreMap) (mid aid : List Char) : Option StoreArtifact :=
  s mid aid

/-- The `onArtifactStart` callback of `useSendMessage`: eagerly stores a
fresh `creating` record at version 1 with a fresh `createdAt` (`t`).
The panel-visibility side effects are UI state outside the claims. -/
def onArtifactStartCB (s : CanvasStoreMap) (sessionId : List Char) (t : Nat)
    (id type title messageId : List Char) : CanvasStoreMap :=
  setArtifact s messageId
    { id := id, type := type, title := title
      codeLanguage := "jsx".toList, codeContent := [], config := none
      status := "creating".toList, isStreaming := true
      messageId := messageId, sessionId := sessionId
      currentVersion := 1, createdAt := t, updatedAt := t }

/-- The `onCodeUpdate` callback of `useSendMessage`: replace the code of
the matching record in place (no-op when the record is absent). -/
def onCodeUpdateCB (s : CanvasStoreMap) (t : Nat)
    (messageId artifactId language content : List Char) : CanvasStoreMap :=
  match getArtifact s messageId artifactId with
  | some artifact =>
    setArtifact s messageId
      { artifact with codeLanguage := language, codeContent := content, updatedAt := t }
  | none => s

/-- The `onArtifactComplete` callback of `useSendMessage`: version is
`existing.currentVersion + 1` when a record exists (else 1), `createdAt`
is carried over from the existing record (else fresh).  Returns the stored
record as well (it is also handed to the persistence side effect). -/
def onArtifactCompleteCB (s : CanvasStoreMap) (sessionId : List Char) (t : Nat)
    (id type title codeLanguage codeContent : List Char)
    (config : Option (List Char)) (messageId : List Char) :
    CanvasStoreMap × StoreArtifact :=
  let existing := getArtifact s messageId id
  let currentVersion := match existing with | some e => e.currentVersion + 1 | none => 1
  let createdAt := match existing with | some e => e.createdAt | none => t
  let updated : StoreArtifact :=
    { id := id, type := type, title := title
      codeLanguage := codeLanguage, codeContent := codeContent, config := config
      status := "ready".toList, isStreaming := false
      messageId := messageId, sessionId := sessionId
      currentVersion := currentVersion, createdAt := createdAt, updatedAt := t }
  (setArtifact s messageId updated, updated)

/-- Dispatch one parser event to the `useSendMessage` callbacks
(`onCodeComplete` is a no-op there, `onError` only logs); the clock ticks
once per callback invocation. -/
def applyEvent (sessionId : List Char) (acc : CanvasStoreMap × Nat) (e : PEvent) :
    CanvasStoreMap × Nat :=
  let (s, t) := acc
  match e with
  | .artifactStart id type title mid =>
    (onArtifactStartCB s sessionId t id type title mid, t + 1)
  | .codeUpdate mid aid lang content => (onCodeUpdateCB s t mid aid lang content, t + 1)
  | .codeComplete _ _ => (s, t + 1)
  | .artifactComplete id type title lang content config mid =>
    ((onArtifactCompleteCB s sessionId t id type title lang content config mid).1, t + 1)
  | .error _ _ _ => (s, t + 1)

/-- Apply a whole event trace to the store. -/
def applyEvents (sessionId : List Char) (s : CanvasStoreMap) (t : Nat)
    (evs : List PEvent) : CanvasStoreMap × Nat :=
  evs.foldl (applyEvent sessionId) (s, t)

/-- The store contents produced by streaming a complete message content
through the parser and the `useSendMessage` callbacks. -/
def streamedStore (sessionId : List Char) (t : Nat) (mid content : List Char) :
    CanvasStoreMap :=
  (applyEvents sessionId emptyStore t (runFragments mid [content]).2).1

/-! ## Offline restoration (`restoreArtifactsFromMessage(s)`) -/

/-- Length of the run of non-`>` characters at index `i`: the most a
greedy `[^>]*` can consume there. -/
def nonGtRun (c : List Char) (i : Nat) : Nat :=
  ((c.drop i).takeWhile (fun ch => ch ≠ '>')).length

/-- Greedy backtracking over a quantifier: try `hi, hi - 1, …, 0`
consumed-lengths, first success wins (the regex engine's preference
order for a greedy quantifier). -/
def tryDown {α : Type} (f : Nat → Option α) : Nat → Option α
  | 0 => f 0
  | k + 1 =>
    match f (k + 1) with
    | some r => some r
    | none => tryDown f k

/-- Try alternatives in preference order, first success wins. -/
def firstSome {α β : Type} (f : α → Option β) : List α → Option β
  | [] => none
  | a :: rest =>
    match f a with
    | some r => some r
    | none => firstSome f rest

/-- Match `["']([^"']+)["']` at `i`: opening quote, nonempty greedy run of
non-quote characters, closing quote; the run is an exact maximal munch
because shorter runs end on a non-quote character.  Returns the capture
and the index after the closing quote. -/
def quotedValueAt (c : List Char) (i : Nat) : Option (List Char × Nat) :=
  match c.get? i with
  | some q =>
    if isQuoteChar q then
      let v := (c.drop (i + 1)).takeWhile (fun ch => !isQuoteChar ch)
      if v = [] then none
      else
        match c.get? (i + 1 + v.length) with
        | some q2 => if isQuoteChar q2 then some (v, i + 1 + v.length + 1) else none
        | none => none
    else none
  | none => none

def idEqLit : List Char := "id=".toList
def titleEqLit : List Char := "title=".toList
def languageEqLit : List Char := "language=".toList

/-- One attempted match, anchored at `i`, of the restoration regex
`<canvasArtifact[^>]*id=["']([^"']+)["'][^>]*title=["']([^"']+)["'][^>]*>([\s\S]*?)<\/canvasArtifact>`
with the `i` flag: literals are matched case-insensitively, each `[^>]*`
is greedy with backtracking (`tryDown`), and the lazy `([\s\S]*?)` runs to
the first closing tag.  Returns `((id, title, inner), end-of-match)`. -/
def matchArtifactAt (c : List Char) (i : Nat) :
    Option ((List Char × List Char × List Char) × Nat) :=
  if isTagAt c i ARTIFACT_TAG_OPEN then
    let j0 := i + ARTIFACT_TAG_OPEN.length
    tryDown
      (fun k1 =>
        let p := j0 + k1
        if isTagAt c p idEqLit then
          match quotedValueAt c (p + idEqLit.length) with
          | some (idv, p2) =>
            tryDown
              (fun k2 =>
                let q := p2 + k2
                if isTagAt c q titleEqLit then
                  match quotedValueAt c (q + titleEqLit.length) with
                  | some (titlev, q2) =>
                    tryDown
                      (fun k3 =>
                        let r := q2 + k3
                        if c.get? r = some '>' then
                          match findTagIndex c (r + 1) ARTIFACT_TAG_CLOSE with
                          | some cl =>
                            some ((idv, titlev, jsSlice c (r + 1) cl),
                              cl + ARTIFACT_TAG_CLOSE.length)
                          | none => none
                        else none)
                      (nonGtRun c q2)
                  | none => none
                else none)
              (nonGtRun c p2)
          | none => none
        else none)
      (nonGtRun c j0)
  else none

/-- The `artifactRegex.exec` loop with the `g` flag: repeatedly find the
leftmost match at or after the last match's end. -/
def scanArtifactsAux (c : List Char) :
    Nat → Nat → List ((List Char × List Char × List Char) × Nat)
  | _, 0 => []
  | i, fuel + 1 =>
    if i ≤ c.length then
      match matchArtifactAt c i with
      | some (caps, endPos) => (caps, endPos) :: scanArtifactsAux c endPos fuel
      | none => scanArtifactsAux c (i + 1) fuel
    else []

/-- All artifact spans `(id, title, inner)` that the restoration regex
extracts from a message content, in order. -/
def scanArtifacts (c : List Char) : List (List Char × List Char × List Char) :=
  (scanArtifactsAux c 0 (c.length + 2)).map (·.1)

/-- `["']?` at `i`: candidate continuation positions in greedy preference
order (quote consumed first when present). -/
def optQuoteAlts (c : List Char) (i : Nat) : List Nat :=
  match c.get? i with
  | some q => if isQuoteChar q then [i + 1, i] else [i]
  | none => [i]

/-- One attempted match, anchored at `i`, of the inner code regex
`<canvasCode[^>]*language=["']?(\w+)["']?[^>]*>([\s\S]*?)<\/canvasCode>`
(`/i`).  Returns `(language, inner)`. -/
def matchCodeAt (c : List Char) (i : Nat) : Option (List Char × List Char) :=
  if isTagAt c i CODE_TAG_OPEN then
    let j0 := i + CODE_TAG_OPEN.length
    tryDown
      (fun k1 =>
        let p := j0 + k1
        if isTagAt c p languageEqLit then
          firstSome
            (fun p1 =>
              tryDown
                (fun v =>
                  if v = 0 then none
                  else
                    let lang := (c.drop p1).take v
                    firstSome
                      (fun p2 =>
                        tryDown
                          (fun k3 =>
                            let r := p2 + k3
                            if c.get? r = some '>' then
                              match findTagIndex c (r + 1) CODE_TAG_CLOSE with
                              | some cl => some (lang, jsSlice c (r + 1) cl)
                              | none => none
                            else none)
                          (nonGtRun c p2))
                      (optQuoteAlts c (p1 + v)))
                ((c.drop p1).takeWhile isWordChar).length)
            (optQuoteAlts c (p + languageEqLit.length))
        else none)
      (nonGtRun c j0)
  else none

/-- First match of the code regex (no `g` flag): leftmost start wins. -/
def matchCodeFirstAux (c : List Char) : Nat → Nat → Option (List Char × List Char)
  | _, 0 => none
  | i, fuel + 1 =>
    match matchCodeAt c i with
    | some r => some r
    | none => if i < c.length then matchCodeFirstAux c (i + 1) fuel else none

def matchCodeFirst (c : List Char) : Option (List Char × List Char) :=
  matchCodeFirstAux c 0 (c.length + 1)

/-- JavaScript `String.prototype.trim`. -/
def jsTrim (s : List Char) : List Char :=
  ((s.dropWhile isJsSpace).reverse.dropWhile isJsSpace).reverse

/-- The record built by one iteration of `restoreArtifactsFromMessage`'s
loop from one regex match `(id, title, inner)`, at restore time `t`:
type is hard-coded `component`, code falls back to the trimmed inner span,
`sessionId` is empty, `currentVersion` is 1. -/
def restoredRecord (t : Nat) (mid : List Char)
    (m : List Char × List Char × List Char) : StoreArtifact :=
  let codeMatch := matchCodeFirst m.2.2
  let language :=
    jsOr (match codeMatch with | some (lang, _) => lang | none => []) "jsx".toList
  let codeContent :=
    jsOr (match codeMatch with | some (_, inner) => inner | none => []) m.2.2
  { id := m.1, type := "component".toList, title := m.2.1
    codeLanguage := language, codeContent := jsTrim codeContent, config := none
    status := "ready".toList, isStreaming := false
    messageId := mid, sessionId := [], currentVersion := 1
    createdAt := t, updatedAt := t }

/-- `CanvasStore.restoreArtifactsFromMessage(messageId, content)` at
restore time `t` (`notify` has no observable store effect). -/
def restoreArtifactsFromMessage (s : CanvasStoreMap) (t : Nat)
    (mid content : List Char) : CanvasStoreMap :=
  (scanArtifacts content).foldl (fun s m => setArtifact s mid (restoredRecord t mid m)) s

/-- A block of a historical message's array-form content. -/
inductive MsgBlock where
  | str (s : List Char)
  | obj (text : Option (List Char))
deriving DecidableEq, Repr

/-- `message.content`: a string or an array of blocks. -/
inductive MsgContent where
  | str (s : List Char)
  | arr (blocks : List MsgBlock)
deriving DecidableEq, Repr

/-- A historical message as `restoreArtifactsFromMessages` receives it. -/
structure HistMessage where
  id : Option (List Char)
  content : MsgContent
deriving DecidableEq, Repr

/-- The block-to-text step of `restoreArtifactsFromMessages`
(strings pass through, `block?.text` when truthy, else empty). -/
def blockText : MsgBlock → List Char
  | .str s => s
  | .obj (some t) => if t = [] then [] else t
  | .obj none => []

/-- `contentStr` as the source assembles it. -/
def contentStrOf : MsgContent → List Char
  | .str s => s
  | .arr bs => (bs.map blockText).flatten

/-- The guard `/<canvasartifact/i.test(contentStr)`. -/
def hasArtifactOpen (s : List Char) : Bool :=
  (findTagIndex s 0 "<canvasartifact".toList).isSome

/-- `CanvasStore.restoreArtifactsFromMessages(messages)` at restore time
`t`: skip messages without a truthy id, assemble the content string, and
restore from it when it contains an artifact open tag. -/
def restoreArtifactsFromMessages (s : CanvasStoreMap) (t : Nat)
    (msgs : List HistMessage) : CanvasStoreMap :=
  msgs.foldl
    (fun s msg =>
      match msg.id with
      | none => s
      | some mid =>
        if mid = [] then s
        else
          let contentStr := contentStrOf msg.content
          if hasArtifactOpen contentStr then
            restoreArtifactsFromMessage s t mid contentStr
          else s)
    s

/-! ## Concrete inputs used by the claims -/

/-- Example 1's input (spec §8), with the repository's concrete tag
vocabulary. -/
def exampleOneInput : List Char :=
  "hello <canvasArtifact id=\"a1\" type=\"component\" title=\"Counter\"><canvasCode language=\"x\">foo</canvasCode></canvasArtifact> bye".toList

/-- A text on which one-shot and split parses disagree: the stray
code-open tag after the artifact close derails the one-shot scan (the
ARTIFACT state finds it by unbounded search and skips the close tag). -/
def chunkCexInput : List Char :=
  "<canvasArtifact id=\"a\" type=\"react\" title=\"t\">x</canvasArtifact><canvasCode language=\"x\">foo</canvasCode>".toList

/-- A complete well-formed artifact message with `type="react"`. -/
def reactMsg : List Char :=
  "<canvasArtifact id=\"a1\" type=\"react\" title=\"T\"><canvasCode language=\"jsx\">foo</canvasCode></canvasArtifact>".toList

/-- A complete well-formed artifact message with `type="component"`. -/
def componentMsg : List Char :=
  "<canvasArtifact id=\"a1\" type=\"component\" title=\"T\"><canvasCode language=\"jsx\">foo</canvasCode></canvasArtifact>".toList

/-- `componentMsg` with the `title` attribute listed before `id`. -/
def flipMsg : List Char :=
  "<canvasArtifact title=\"T\" id=\"a1\" type=\"component\"><canvasCode language=\"jsx\">foo</canvasCode></canvasArtifact>".toList

/-- The attribute text of `flipMsg`'s open tag. -/
def flipAttrs : List Char := " title=\"T\" id=\"a1\" type=\"component\"".toList

/-! ## Claim C1 — chunk-invariance of the incremental scanner -/

/-- The `onArtifactStart` event of `chunkCexInput`'s artifact. -/
def cexStart : PEvent :=
  PEvent.artifactStart "a".toList "react".toList "t".toList "m".toList

/-- The completion event the split run emits (no code was seen before the
close tag, so the payload has empty content and default language). -/
def cexDone : PEvent :=
  PEvent.artifactComplete "a".toList "react".toList "t".toList "jsx".toList [] none
    "m".toList

/-- The state after the split run's first fragment: the artifact completed
at its close tag, back to searching. -/
def cexState64 : ParserState :=
  { position := 64, insideArtifact := false, insideCode := false, insideConfig := false
    currentArtifact := none, currentCode := none, currentConfig := none
    fullContent := chunkCexInput.take 64, messageId := "m".toList }

/-- The split run's final state. -/
def cexState105 : ParserState :=
  { cexState64 with position := 105, fullContent := chunkCexInput }

/-- The one-shot run's final state: the close tag was skipped (the
ARTIFACT state's unbounded search found the stray code-open tag first),
so the artifact is still open with the stray code block buffered. -/
def cexStateOne : ParserState :=
  { position := 105, insideArtifact := true, insideCode := false, insideConfig := false
    currentArtifact := some ⟨"a".toList, "react".toList, "t".toList⟩
    currentCode := some ⟨"x".toList, "foo".toList, 89⟩, currentConfig := none
    fullContent := chunkCexInput, messageId := "m".toList }

set_option maxRecDepth 400000 in
lemma cexRun1 : runStep (initState "m".toList, []) (chunkCexInput.take 64) =
    (cexState64, [cexStart, cexDone]) := rfl

set_option maxRecDepth 400000 in
lemma cexRun2 : runStep (cexState64, [cexStart, cexDone]) (chunkCexInput.drop 64) =
    (cexState105, [cexStart, cexDone]) := rfl

set_option maxRecDepth 400000 in
lemma cexRunOne : runStep (initState "m".toList, []) chunkCexInput =
    (cexStateOne, [cexStart, PEvent.codeComplete "x".toList "foo".toList]) := rfl

set_option maxRecDepth 400000 in
/-- Claim C1, counterexample: splitting `chunkCexInput` after its
`</canvasArtifact>` (index 64) changes the final `onArtifactComplete`
payloads — the split run completes the artifact (with empty code), the
one-shot run completes nothing, because the ARTIFACT state's unbounded
search finds the later `<canvasCode` first and skips the close tag.  So
chunk-invariance fails for some input and some split. -/
theorem C1_chunk_invariance_cex :
    completionsOf (runFragments "m".toList [chunkCexInput.take 64, chunkCexInput.drop 64]).2 ≠
      completionsOf (runFragments "m".toList [chunkCexInput]).2 := by
  show completionsOf (List.foldl runStep (initState "m".toList, [])
      [chunkCexInput.take 64, chunkCexInput.drop 64]).2 ≠
    completionsOf (List.foldl runStep (initState "m".toList, []) [chunkCexInput]).2
  rw [List.foldl_cons, cexRun1, List.foldl_cons, cexRun2, List.foldl_nil,
    List.foldl_cons, cexRunOne, List.foldl_nil]
  decide

/-- The `onArtifactStart` event of Example 1's artifact. -/
def c1start : PEvent :=
  PEvent.artifactStart "a1".toList "component".toList "Counter".toList "m".toList

/-- An `onCodeUpdate` event of Example 1's code block with the given
cumulative content. -/
def c1upd (s : List Char) : PEvent :=
  PEvent.codeUpdate "m".toList "a1".toList "x".toList s

/-- The `onCodeComplete` event of Example 1. -/
def c1codeDone : PEvent := PEvent.codeComplete "x".toList "foo".toList

/-- The single `onArtifactComplete` payload of Example 1: id `a1`, type
`component`, title `Counter`, language `x`, content `foo`, no config. -/
def c1done : PEvent :=
  PEvent.artifactComplete "a1".toList "component".toList "Counter".toList "x".toList
    "foo".toList none "m".toList

/-- The character-by-character fragmentation of Example 1's input
(Example 2 of the spec). -/
def c1frags : List (List Char) := exampleOneInput.map (fun c => [c])

/-- Example 1's artifact attributes as the parser stores them. -/
def c1art : CurArtifact := ⟨"a1".toList, "component".toList, "Counter".toList⟩

/-- The parser state after feeding Example 1's first 50 characters one by
one: still searching (a partial open tag starts at index 6). -/
def c1state50 : ParserState :=
  { position := 6, insideArtifact := false, insideCode := false, insideConfig := false
    currentArtifact := none, currentCode := none, currentConfig := none
    fullContent := exampleOneInput.take 50, messageId := "m".toList }

/-- After 70 characters: the open tag is complete, the artifact started. -/
def c1state70 : ParserState :=
  { position := 63, insideArtifact := true, insideCode := false, insideConfig := false
    currentArtifact := some c1art, currentCode := none, currentConfig := none
    fullContent := exampleOneInput.take 70, messageId := "m".toList }

/-- After 86 characters: inside the artifact, the code-open tag still
partial. -/
def c1state86 : ParserState :=
  { c1state70 with fullContent := exampleOneInput.take 86 }

/-- After 100 characters: inside the code block, content `foo` buffered,
a partial code-close tag pending. -/
def c1state100 : ParserState :=
  { position := 91, insideArtifact := true, insideCode := true, insideConfig := false
    currentArtifact := some c1art, currentCode := some ⟨"x".toList, "foo".toList, 88⟩
    currentConfig := none, fullContent := exampleOneInput.take 100
    messageId := "m".toList }

/-- After 111 characters: the code block closed, a partial artifact-close
tag pending. -/
def c1state111 : ParserState :=
  { c1state100 with position := 104, insideCode := false, fullContent := exampleOneInput.take 111 }

/-- After all 125 characters: the artifact completed, back to searching. -/
def c1state125 : ParserState :=
  { position := 125, insideArtifact := false, insideCode := false, insideConfig := false
    currentArtifact := none, currentCode := none, currentConfig := none
    fullContent := exampleOneInput, messageId := "m".toList }

/-- The events emitted during the first 100 single-character calls. -/
def c1evs100 : List PEvent :=
  [c1start, c1upd "f".toList, c1upd "fo".toList] ++
    List.replicate 10 (c1upd "foo".toList)

/-- The events emitted during the first 111 single-character calls. -/
def c1evs111 : List PEvent :=
  [c1start, c1upd "f".toList, c1upd "fo".toList] ++
    List.replicate 13 (c1upd "foo".toList) ++ [c1codeDone]

/-- The events emitted during all 125 single-character calls. -/
def c1evs125 : List PEvent := c1evs111 ++ [c1done]

/-- Characters 1–50 of Example 2's fragmentation. -/
def c1fragsA : List (List Char) := c1frags.take 50

/-- Characters 51–70. -/
def c1fragsB : List (List Char) := (c1frags.drop 50).take 20

/-- Characters 71–86. -/
def c1fragsC : List (List Char) := (c1frags.drop 70).take 16

/-- Characters 87–100. -/
def c1fragsD : List (List Char) := (c1frags.drop 86).take 14

/-- Characters 101–111. -/
def c1fragsE : List (List Char) := (c1frags.drop 100).take 11

/-- Characters 112–125. -/
def c1fragsF : List (List Char) := c1frags.drop 111

set_option maxRecDepth 400000 in
lemma c1run50 :
    List.foldl runStep (initState "m".toList, []) c1fragsA = (c1state50, []) := rfl

set_option maxRecDepth 400000 in
lemma c1run70 :
    List.foldl runStep (c1state50, []) c1fragsB = (c1state70, [c1start]) := rfl

set_option maxRecDepth 400000 in
lemma c1run86 :
    List.foldl runStep (c1state70, [c1start]) c1fragsC = (c1state86, [c1start]) := rfl

set_option maxRecDepth 400000 in
lemma c1run100 :
    List.foldl runStep (c1state86, [c1start]) c1fragsD = (c1state100, c1evs100) := rfl

set_option maxRecDepth 400000 in
lemma c1run111 :
    List.foldl runStep (c1state100, c1evs100) c1fragsE = (c1state111, c1evs111) := rfl

set_option maxRecDepth 400000 in
lemma c1run125 :
    List.foldl runStep (c1state111, c1evs111) c1fragsF = (c1state125, c1evs125) := rfl

set_option maxRecDepth 400000 in
lemma c1oneshot : runFragments "m".toList [exampleOneInput] =
    (c1state125, [c1start, c1codeDone, c1done]) := rfl

set_option maxRecDepth 400000 in
/-- Claim C1, amended: chunk-invariance does not hold for every input
(see `C1_chunk_invariance_cex`); it does hold for the spec's Example 1
input: a single `parse()` call yields exactly one `onArtifactComplete`
payload, and feeding the same input character by character (Example 2)
produces the same final `onArtifactComplete` payloads. -/
theorem C1_chunk_invariance_amended :
    completionsOf (runFragments "m".toList [exampleOneInput]).2 = [c1done] ∧
    completionsOf (runFragments "m".toList (exampleOneInput.map (fun c => [c]))).2 =
      completionsOf (runFragments "m".toList [exampleOneInput]).2 := by
  have hsplit : exampleOneInput.map (fun c => [c]) =
      c1fragsA ++ (c1fragsB ++ (c1fragsC ++ (c1fragsD ++ (c1fragsE ++ c1fragsF)))) := rfl
  constructor
  · rw [c1oneshot]
    rfl
  · rw [c1oneshot]
    show completionsOf (List.foldl runStep (initState "m".toList, [])
      (exampleOneInput.map (fun c => [c]))).2 = _
    rw [hsplit, List.foldl_append, c1run50, List.foldl_append, c1run70,
      List.foldl_append, c1run86, List.foldl_append, c1run100,
      List.foldl_append, c1run111, c1run125]
    rfl

/-! ## Claim C2 — store versioning across open/close cycles -/

/-- Two full open/close cycles of the same artifact id within the same
message, applied to an empty store through the `useSendMessage` callbacks;
the two completion records are returned. -/
def twoCycleRecords (sess mid id ty ti lang code : List Char)
    (cfg : Option (List Char)) (t1 t2 t3 t4 : Nat) : StoreArtifact × StoreArtifact :=
  let s1 := onArtifactStartCB emptyStore sess t1 id ty ti mid
  let p2 := onArtifactCompleteCB s1 sess t2 id ty ti lang code cfg mid
  let s3 := onArtifactStartCB p2.1 sess t3 id ty ti mid
  let p4 := onArtifactCompleteCB s3 sess t4 id ty ti lang code cfg mid
  (p2.2, p4.2)

/-- Claim C2, counterexample: the claimed pattern — versions 1 then 2 with
identical `createdAt` — is false on a concrete two-cycle run: the eager
`onArtifactStart` record already counts as version 1, so the first
completion stores version 2. -/
theorem C2_version_monotonicity_cex :
    ¬ ((twoCycleRecords "s".toList "m".toList "a".toList "component".toList "t".toList
          "jsx".toList "foo".toList none 0 1 2 3).1.currentVersion = 1 ∧
        (twoCycleRecords "s".toList "m".toList "a".toList "component".toList "t".toList
          "jsx".toList "foo".toList none 0 1 2 3).2.currentVersion = 2 ∧
        (twoCycleRecords "s".toList "m".toList "a".toList "component".toList "t".toList
          "jsx".toList "foo".toList none 0 1 2 3).1.createdAt =
          (twoCycleRecords "s".toList "m".toList "a".toList "component".toList "t".toList
            "jsx".toList "foo".toList none 0 1 2 3).2.createdAt) := by
  decide

/-- Claim C2, amended: for every two-cycle run, **both** completions store
`currentVersion = 2` (each `onArtifactStart` resets the record to version
1 and each `onArtifactComplete` increments it), and each completion's
`createdAt` is the timestamp of its own cycle's `onArtifactStart` — it is
not carried over from the first cycle. -/
theorem C2_version_monotonicity_amended :
    ∀ sess mid id ty ti lang code cfg t1 t2 t3 t4,
      (twoCycleRecords sess mid id ty ti lang code cfg t1 t2 t3 t4).1.currentVersion = 2 ∧
      (twoCycleRecords sess mid id ty ti lang code cfg t1 t2 t3 t4).2.currentVersion = 2 ∧
      (twoCycleRecords sess mid id ty ti lang code cfg t1 t2 t3 t4).1.createdAt = t1 ∧
      (twoCycleRecords sess mid id ty ti lang code cfg t1 t2 t3 t4).2.createdAt = t3 := by
  intro sess mid id ty ti lang code cfg t1 t2 t3 t4
  simp [twoCycleRecords, onArtifactStartCB, onArtifactCompleteCB, getArtifact, setArtifact,
    emptyStore]

/-! ## Claim C3 — monotonic code growth -/

/-- The contents reported by the `onCodeUpdate` events of a trace. -/
def codeUpdateContents (evs : List PEvent) : List (List Char) :=
  evs.filterMap (fun e => match e with | .codeUpdate _ _ _ content => some content | _ => none)

/-- The opening of an artifact and its code block, ending in the escape
entity `&amp` split just before its terminating semicolon. -/
def c3frag1 : List Char :=
  "<canvasArtifact id=\"a\" type=\"react\" title=\"t\"><canvasCode language=\"x\">&amp".toList

set_option maxRecDepth 400000 in
/-- Claim C3, counterexample: feeding `c3frag1` then `";"` makes
`onCodeUpdate` report `"&amp"` and then `"&"` — the earlier content is not
a prefix of the later one, because the parser unescapes the cumulative raw
slice and the entity was split across fragments. -/
theorem C3_monotonic_growth_cex :
    codeUpdateContents (runFragments "m".toList [c3frag1, ";".toList]).2 =
      ["&amp".toList, "&".toList] ∧
    ¬ ("&amp".toList <+: "&".toList) := by
  decide

/-! ## Claim C4 — offline/streaming compatibility -/

/-- The fields the claim compares between the offline-restored record and
the streamed record: id, title, type, code language, code content, status,
`isStreaming`. -/
def seedFields (a : StoreArtifact) :
    List Char × List Char × List Char × List Char × List Char × List Char × Bool :=
  (a.id, a.title, a.type, a.codeLanguage, a.codeContent, a.status, a.isStreaming)

set_option maxRecDepth 400000 in
/-- Claim C4, counterexample: for the complete, well-formed message
`reactMsg` (declared `type="react"`), the offline restoration stores
`type = "component"` (it hard-codes the type), while the streaming parse
of the same content stores `type = "react"` — the records are not
structurally identical. -/
theorem C4_offline_streaming_cex :
    (getArtifact (restoreArtifactsFromMessage emptyStore 0 "m".toList reactMsg)
        "m".toList "a1".toList).map (·.type) = some "component".toList ∧
    (getArtifact (streamedStore "s".toList 0 "m".toList reactMsg)
        "m".toList "a1".toList).map (·.type) = some "react".toList := by
  decide

set_option maxRecDepth 400000 in
/-- Claim C4, amended: the offline restoration seeds a record agreeing
with the streaming path on id, title, type, code language, code content,
status (`ready`) and `isStreaming` (false) only on the compatible fragment
of messages — type declared `component`, `id` listed before `title`, code
content needing neither unescaping nor trimming — shown here on the
representative `componentMsg`; outside it the records differ (see the
counterexample, where the declared type is `react`). -/
theorem C4_offline_streaming_amended :
    (getArtifact (restoreArtifactsFromMessage emptyStore 5 "m".toList componentMsg)
        "m".toList "a1".toList).map seedFields =
      (getArtifact (streamedStore "s".toList 0 "m".toList componentMsg)
        "m".toList "a1".toList).map seedFields := by
  rfl

/-! ## Claim C10 — attribute-order sensitivity of the offline restoration -/

set_option maxRecDepth 400000 in
/-- Claim C10: `flipMsg` is `componentMsg` with `title` listed before
`id`.  The restoration regex extracts nothing from it (the pass stores no
record at all: the store is left untouched), while the regex does extract
from the `id`-first `componentMsg`; and the streaming side accepts the
flipped order — `parseAttributes` finds all three required attributes in
`flipMsg`'s open tag, and the streaming parse of `flipMsg` completes the
artifact. -/
theorem C10_attribute_order :
    scanArtifacts flipMsg = [] ∧
    restoreArtifactsFromMessage emptyStore 0 "m".toList flipMsg = emptyStore ∧
    scanArtifacts componentMsg ≠ [] ∧
    attrGet (parseAttributes flipAttrs) "id".toList = "a1".toList ∧
    attrGet (parseAttributes flipAttrs) "title".toList = "T".toList ∧
    attrGet (parseAttributes flipAttrs) "type".toList = "component".toList ∧
    completionsOf (runFragments "m".toList [flipMsg]).2 =
      [PEvent.artifactComplete "a1".toList "component".toList "T".toList "jsx".toList
        "foo".toList none "m".toList] := by
  refine ⟨by decide, ?_, by decide, by decide, by decide, by decide, by decide⟩
  funext m a
  simp only [restoreArtifactsFromMessage]
  rw [show scanArtifacts flipMsg = [] by decide]
  rfl

/-! ## Claim C5 — idempotence of the offline restoration -/

/-- A one-message batch for the counterexample. -/
def batchB : List HistMessage := [⟨some "m".toList, .str reactMsg⟩]

set_option maxRecDepth 400000 in
/-- Claim C5, counterexample: running the restoration twice does not leave
the store with literally the same contents as running it once — the
second run re-stamps `createdAt` / `updatedAt` with its own time, so the
record differs between the runs (here: restore times 0 and 1). -/
theorem C5_idempotent_restoration_cex :
    restoreArtifactsFromMessages (restoreArtifactsFromMessages emptyStore 0 batchB) 1 batchB
        "m".toList "a1".toList ≠
      restoreArtifactsFromMessages emptyStore 0 batchB "m".toList "a1".toList := by
  decide

/-- Zero out the timestamp fields (the two fields a repeated restore run
re-stamps). -/
def scrubTimes (a : StoreArtifact) : StoreArtifact :=
  { a with createdAt := 0, updatedAt := 0 }

/-- The time-independent core of one restored artifact: its message id and
the regex captures `(id, title, inner)`. -/
abbrev RestoreCore := List Char × (List Char × List Char × List Char)

/-- The cores one message contributes to a batch restore (empty when the
message is skipped by the guards). -/
def msgCores (msg : HistMessage) : List RestoreCore :=
  match msg.id with
  | none => []
  | some mid =>
    if mid = [] then []
    else
      if hasArtifactOpen (contentStrOf msg.content) then
        (scanArtifacts (contentStrOf msg.content)).map (fun mm => (mid, mm))
      else []

/-- All cores of a batch, in restore order. -/
def batchCores (msgs : List HistMessage) : List RestoreCore :=
  msgs.flatMap msgCores

/-- One store insertion. -/
def setPair (s : CanvasStoreMap) (p : List Char × StoreArtifact) : CanvasStoreMap :=
  setArtifact s p.1 p.2

/-- The insertion a core produces at restore time `t`. -/
def corePair (t : Nat) (q : RestoreCore) : List Char × StoreArtifact :=
  (q.1, restoredRecord t q.1 q.2)

lemma restoreMessage_eq_foldl (s : CanvasStoreMap) (t : Nat) (mid c : List Char) :
    restoreArtifactsFromMessage s t mid c =
      (((scanArtifacts c).map (fun mm => ((mid, mm) : RestoreCore))).map (corePair t)).foldl
        setPair s := by
  simp [restoreArtifactsFromMessage, List.foldl_map, List.map_map, corePair, setPair,
    Function.comp]

lemma restoreMsgs_eq_foldl (msgs : List HistMessage) (s : CanvasStoreMap) (t : Nat) :
    restoreArtifactsFromMessages s t msgs =
      ((batchCores msgs).map (corePair t)).foldl setPair s := by
  induction msgs generalizing s with
  | nil => rfl
  | cons msg rest ih =>
    have hstep : ∀ s' : CanvasStoreMap,
        restoreArtifactsFromMessages s' t (msg :: rest) =
          restoreArtifactsFromMessages
            (((msgCores msg).map (corePair t)).foldl setPair s') t rest := by
      intro s'
      cases h : msg.id with
      | none => simp [restoreArtifactsFromMessages, msgCores, h]
      | some mid =>
        by_cases hm : mid = []
        · simp [restoreArtifactsFromMessages, msgCores, h, hm]
        · by_cases hg : hasArtifactOpen (contentStrOf msg.content)
          · simp [restoreArtifactsFromMessages, msgCores, h, hm, hg,
              restoreMessage_eq_foldl]
          · simp [restoreArtifactsFromMessages, msgCores, h, hm, hg]
    rw [hstep, ih]
    rw [show batchCores (msg :: rest) = msgCores msg ++ batchCores rest from rfl]
    rw [List.map_append, List.foldl_append]

lemma lookup_foldl_setPair (L : List (List Char × StoreArtifact)) (s : CanvasStoreMap)
    (m a : List Char) :
    (L.foldl setPair s) m a =
      match (L.filter (fun p => p.1 = m ∧ p.2.id = a)).getLast? with
      | some p => some p.2
      | none => s m a := by
  induction L using List.reverseRecOn generalizing s with
  | nil => rfl
  | append_singleton L' p ih =>
    rw [List.foldl_append, List.filter_append]
    by_cases h : p.1 = m ∧ p.2.id = a
    · have : (([p].filter (fun p => p.1 = m ∧ p.2.id = a))) = [p] := by
        simp [List.filter, h]
      rw [this, List.getLast?_concat]
      show (setPair (L'.foldl setPair s) p) m a = some p.2
      simp [setPair, setArtifact, h.1.symm, h.2.symm]
    · have : (([p].filter (fun p => p.1 = m ∧ p.2.id = a))) = [] := by
        simp [List.filter, h]
      rw [this, List.append_nil]
      show (setPair (L'.foldl setPair s) p) m a = _
      have hne : ¬(m = p.1 ∧ a = p.2.id) := by
        intro hc; exact h ⟨hc.1.symm, hc.2.symm⟩
      simp only [setPair, setArtifact, if_neg hne]
      exact ih s

lemma getLast?_map {α β : Type} (f : α → β) (l : List α) :
    (l.map f).getLast? = l.getLast?.map f := by
  rw [← List.head?_reverse, ← List.head?_reverse, ← List.map_reverse]
  cases l.reverse <;> rfl

/-- What one restore run makes of any store key: the last matching core's
record (stamped with this run's time), or the underlying entry. -/
lemma restoreMsgs_lookup (msgs : List HistMessage) (s : CanvasStoreMap) (t : Nat)
    (m a : List Char) :
    restoreArtifactsFromMessages s t msgs m a =
      match ((batchCores msgs).filter (fun q => q.1 = m ∧ q.2.1 = a)).getLast? with
      | some q => some (restoredRecord t q.1 q.2)
      | none => s m a := by
  rw [restoreMsgs_eq_foldl, lookup_foldl_setPair]
  have hfil : ((batchCores msgs).map (corePair t)).filter (fun p => p.1 = m ∧ p.2.id = a) =
      ((batchCores msgs).filter (fun q => q.1 = m ∧ q.2.1 = a)).map (corePair t) := by
    rw [List.filter_map]
    rfl
  rw [hfil, getLast?_map]
  cases ((batchCores msgs).filter (fun q => q.1 = m ∧ q.2.1 = a)).getLast? <;> rfl

/-- Claim C5, amended: restoring the same batch twice leaves every store
key with the same record as restoring it once, apart from the re-stamped
`createdAt`/`updatedAt`; and every key a restore run touches holds a
record at `currentVersion` 1 — a re-run overwrites rather than creating a
duplicate or higher-versioned record. -/
theorem C5_idempotent_restoration_amended :
    ∀ (msgs : List HistMessage) (s : CanvasStoreMap) (t1 t2 : Nat) (m a : List Char),
      (restoreArtifactsFromMessages (restoreArtifactsFromMessages s t1 msgs) t2 msgs m a).map
          scrubTimes =
        (restoreArtifactsFromMessages s t1 msgs m a).map scrubTimes ∧
      ∀ rec, restoreArtifactsFromMessages s t1 msgs m a = some rec →
        s m a = some rec ∨ rec.currentVersion = 1 := by
  intro msgs s t1 t2 m a
  constructor
  · rw [restoreMsgs_lookup msgs _ t2, restoreMsgs_lookup msgs s t1]
    cases hq : ((batchCores msgs).filter (fun q => q.1 = m ∧ q.2.1 = a)).getLast? with
    | none => rfl
    | some q => simp [scrubTimes, restoredRecord]
  · intro rec hrec
    rw [restoreMsgs_lookup msgs s t1] at hrec
    revert hrec
    cases hq : ((batchCores msgs).filter (fun q => q.1 = m ∧ q.2.1 = a)).getLast? with
    | none => intro hrec; exact Or.inl hrec
    | some q =>
      intro hrec
      right
      have : rec = restoredRecord t1 q.1 q.2 := by
        injection hrec.symm
      rw [this]
      rfl

/-- The record `batchB`'s restore inserts (restore time 0). -/
def c5rec : StoreArtifact :=
  restoredRecord 0 "m".toList
    ("a1".toList, "T".toList, "<canvasCode language=\"jsx\">foo</canvasCode>".toList)

set_option maxRecDepth 400000 in
/-- Witness for `C5_idempotent_restoration_amended` on the one-message
batch `batchB`. -/
theorem C5_idempotent_restoration_amended_witness :
    ((restoreArtifactsFromMessages (restoreArtifactsFromMessages emptyStore 0 batchB) 1 batchB
        "m".toList "a1".toList).map scrubTimes =
      (restoreArtifactsFromMessages emptyStore 0 batchB "m".toList "a1".toList).map
        scrubTimes) ∧
    (emptyStore "m".toList "a1".toList = some c5rec ∨ c5rec.currentVersion = 1) :=
  ⟨(C5_idempotent_restoration_amended batchB emptyStore 0 1 "m".toList "a1".toList).1,
    (C5_idempotent_restoration_amended batchB emptyStore 0 1 "m".toList "a1".toList).2 c5rec
      (by decide)⟩

lemma escapeXML_cons (c : Char) (r : List Char) :
    escapeXML (c :: r) = escapeChar c ++ escapeXML r := by
  simp [escapeXML]

lemma escapeChar_length_pos (c : Char) : 1 ≤ (escapeChar c).length := by
  unfold escapeChar
  repeat' split
  all_goals simp

lemma unescape_round : ∀ (fuel : Nat) (s : List Char),
    (escapeXML s).length ≤ fuel → unescapeAux fuel (escapeXML s) = s := by
  intro fuel
  induction fuel with
  | zero =>
    intro s hs
    cases s with
    | nil => rfl
    | cons c r =>
      exfalso
      rw [escapeXML_cons, List.length_append] at hs
      have := escapeChar_length_pos c
      omega
  | succ fuel ih =>
    intro s hs
    cases s with
    | nil => rfl
    | cons c r =>
      rw [escapeXML_cons] at hs ⊢
      by_cases h1 : c = '<'
      · subst h1
        rw [show escapeChar '<' = "&lt;".toList from rfl, List.length_append] at hs
        rw [show escapeChar '<' = "&lt;".toList from rfl]
        show '<' :: unescapeAux fuel (escapeXML r) = '<' :: r
        rw [ih r (by simp at hs; omega)]
      · by_cases h2 : c = '>'
        · subst h2
          rw [show escapeChar '>' = "&gt;".toList from rfl, List.length_append] at hs
          rw [show escapeChar '>' = "&gt;".toList from rfl]
          show '>' :: unescapeAux fuel (escapeXML r) = '>' :: r
          rw [ih r (by simp at hs; omega)]
        · by_cases h3 : c = '&'
          · subst h3
            rw [show escapeChar '&' = "&amp;".toList from rfl, List.length_append] at hs
            rw [show escapeChar '&' = "&amp;".toList from rfl]
            show '&' :: unescapeAux fuel (escapeXML r) = '&' :: r
            rw [ih r (by simp at hs; omega)]
          · by_cases h4 : c = dquoteC
            · subst h4
              rw [show escapeChar dquoteC = "&quot;".toList from rfl, List.length_append] at hs
              rw [show escapeChar dquoteC = "&quot;".toList from rfl]
              show dquoteC :: unescapeAux fuel (escapeXML r) = dquoteC :: r
              rw [ih r (by simp at hs; omega)]
            · by_cases h5 : c = squoteC
              · subst h5
                rw [show escapeChar squoteC = "&#39;".toList from rfl, List.length_append] at hs
                rw [show escapeChar squoteC = "&#39;".toList from rfl]
                show squoteC :: unescapeAux fuel (escapeXML r) = squoteC :: r
                rw [ih r (by simp at hs; omega)]
              · have hc : escapeChar c = [c] := by
                  unfold escapeChar
                  rw [if_neg h1, if_neg h2, if_neg h3, if_neg h4, if_neg h5]
                rw [hc, List.length_append] at hs
                rw [hc]
                show unescapeAux (fuel + 1) (c :: escapeXML r) = c :: r
                rw [unescapeAux, if_neg h3]
                rw [ih r (by simp at hs; omega)]

/-- Claim C9: escaping the five reserved characters and then unescaping
restores every string exactly — `unescapeXML (escapeXML s) = s`. -/
theorem C9_escape_unescape_round_trip : ∀ s : List Char, unescapeXML (escapeXML s) = s := by
  intro s
  exact unescape_round (escapeXML s).length s (le_refl _)

lemma getPartialAux_some_spec (c tag : List Char) (sp : Nat) :
    ∀ len p, getPartialAux c tag sp len = some p →
      len ≤ c.length - sp →
      sp ≤ p ∧ p + 1 ≤ c.length ∧ c.length - p ≤ len ∧
        lowerL (c.drop p) = lowerL (tag.take (c.length - p)) ∧
        ∀ j, sp ≤ j → c.length - j ≤ len → j < p →
          lowerL (c.drop j) ≠ lowerL (tag.take (c.length - j)) := by
  intro len
  induction len with
  | zero => intro p h; simp [getPartialAux] at h
  | succ len ih =>
    intro p h hle
    rw [getPartialAux] at h
    by_cases hsp : c.length - (len + 1) < sp
    · rw [if_pos hsp] at h
      obtain ⟨h1, h2, h3, h4, h5⟩ := ih p h (by omega)
      refine ⟨h1, h2, by omega, h4, ?_⟩
      intro j hj1 hj2 hj3
      exact h5 j hj1 (by omega) hj3
    · rw [if_neg hsp] at h
      by_cases hchk : lowerL (c.drop (c.length - (len + 1))) = lowerL (tag.take (len + 1))
      · rw [if_pos hchk] at h
        injection h with h
        subst h
        have hL : len + 1 ≤ c.length := by omega
        refine ⟨by omega, by omega, by omega, ?_, ?_⟩
        · rw [show c.length - (c.length - (len + 1)) = len + 1 by omega]
          exact hchk
        · intro j hj1 hj2 hj3
          omega
      · rw [if_neg hchk] at h
        obtain ⟨h1, h2, h3, h4, h5⟩ := ih p h (by omega)
        refine ⟨h1, h2, by omega, h4, ?_⟩
        intro j hj1 hj2 hj3
        by_cases hj : c.length - j = len + 1
        · have : j = c.length - (len + 1) := by omega
          subst this
          rw [show c.length - (c.length - (len + 1)) = len + 1 from hj]
          exact hchk
        · exact h5 j hj1 (by omega) hj3

lemma getPartialAux_none_spec (c tag : List Char) (sp : Nat) :
    ∀ len, getPartialAux c tag sp len = none →
      len ≤ c.length - sp →
      ∀ j, sp ≤ j → 1 ≤ c.length - j → c.length - j ≤ len →
        lowerL (c.drop j) ≠ lowerL (tag.take (c.length - j)) := by
  intro len
  induction len with
  | zero => intro _ _ j _ _ _; omega
  | succ len ih =>
    intro h hle j hj1 hj2 hj3
    rw [getPartialAux] at h
    by_cases hsp : c.length - (len + 1) < sp
    · rw [if_pos hsp] at h
      have : c.length - j ≤ len := by omega
      exact ih h (by omega) j hj1 hj2 this
    · rw [if_neg hsp] at h
      by_cases hchk : lowerL (c.drop (c.length - (len + 1))) = lowerL (tag.take (len + 1))
      · rw [if_pos hchk] at h; exact absurd h (by simp)
      · rw [if_neg hchk] at h
        by_cases hj : c.length - j = len + 1
        · have : j = c.length - (len + 1) := by omega
          subst this
          rw [show c.length - (c.length - (len + 1)) = len + 1 from hj]
          exact hchk
        · exact ih h (by omega) j hj1 hj2 (by omega)

lemma getPartialTagStart_some_spec {c tag : List Char} {sp p : Nat}
    (h : getPartialTagStart c sp tag = some p) :
    sp ≤ p ∧ p < c.length ∧ c.length - p ≤ tag.length - 1 ∧
      lowerL (c.drop p) = lowerL (tag.take (c.length - p)) ∧
      ∀ j, sp ≤ j → j < p → c.length - j ≤ tag.length - 1 →
        lowerL (c.drop j) ≠ lowerL (tag.take (c.length - j)) := by
  obtain ⟨h1, h2, h3, h4, h5⟩ :=
    getPartialAux_some_spec c tag sp (min (tag.length - 1) (c.length - sp)) p h
      (min_le_right _ _)
  refine ⟨h1, by omega, by
      have := min_le_left (tag.length - 1) (c.length - sp); omega, h4, ?_⟩
  intro j hj1 hj2 hj3
  exact h5 j hj1 (by have := min_le_left (tag.length - 1) (c.length - sp); omega) hj2

lemma getPartialTagStart_none_spec {c tag : List Char} {sp : Nat}
    (h : getPartialTagStart c sp tag = none) :
    ∀ j, sp ≤ j → j < c.length → c.length - j ≤ tag.length - 1 →
      lowerL (c.drop j) ≠ lowerL (tag.take (c.length - j)) := by
  intro j hj1 hj2 hj3
  exact getPartialAux_none_spec c tag sp (min (tag.length - 1) (c.length - sp)) h
    (min_le_right _ _) j hj1 (by omega) (by omega)

/-- The raw (still escaped) cumulative content computed for an
`onCodeUpdate` event (parser lines 310–319): the slice of the buffer from
the code block's start position to the partial close-tag cutoff (end of
buffer when no partial close tag ends it).  The event reports
`unescapeXML` of this string. -/
def codeUpdateRaw (content : List Char) (startPos : Nat) : List Char :=
  jsSlice content startPos ((getPartialTagStart content startPos CODE_TAG_CLOSE).getD content.length)

lemma prefix_take_eq {l1 l2 : List α} (h : l1 <+: l2) {m : Nat} (hm : m ≤ l1.length) :
    l1.take m = l2.take m := by
  obtain ⟨t, rfl⟩ := h
  rw [List.take_append_of_le_length hm]

lemma prefix_drop {l1 l2 : List α} (h : l1 <+: l2) (n : Nat) :
    l1.drop n <+: l2.drop n := by
  obtain ⟨t, rfl⟩ := h
  by_cases hn : n ≤ l1.length
  · rw [List.drop_append_of_le_length hn]
    exact ⟨t, rfl⟩
  · rw [List.drop_eq_nil_of_le (by omega)]
    exact List.nil_prefix

/-- Claim C3, amended: the **raw** cumulative content behind successive
`onCodeUpdate` events is prefix-monotone — whenever the buffer grows
(`c1 <+: c2`) with the same code start position, the raw reported slice
for `c1` is a prefix of the one for `c2`.  The event payload is
`unescapeXML` of this slice, and unescaping breaks prefix-monotonicity
exactly when an escape entity is split across fragments (see the
counterexample). -/
theorem C3_monotonic_growth_amended : ∀ (c1 c2 : List Char) (sp : Nat), c1 <+: c2 →
    codeUpdateRaw c1 sp <+: codeUpdateRaw c2 sp := by
  intro c1 c2 sp hp
  have hL : c1.length ≤ c2.length := hp.length_le
  -- the cutoffs
  set k1 := (getPartialTagStart c1 sp CODE_TAG_CLOSE).getD c1.length with hk1
  set k2 := (getPartialTagStart c2 sp CODE_TAG_CLOSE).getD c2.length with hk2
  have hk1le : k1 ≤ c1.length := by
    rw [hk1]
    cases h : getPartialTagStart c1 sp CODE_TAG_CLOSE with
    | none => simp
    | some p => simp; exact le_of_lt (getPartialTagStart_some_spec h).2.1
  -- a partial-close match in c2 before c1's end is also one in c1
  have transfer : ∀ j, j < c1.length →
      lowerL (c2.drop j) = lowerL (CODE_TAG_CLOSE.take (c2.length - j)) →
      lowerL (c1.drop j) = lowerL (CODE_TAG_CLOSE.take (c1.length - j)) := by
    intro j hj he
    have hd : c1.drop j <+: c2.drop j := prefix_drop hp j
    have hmap : lowerL (c1.drop j) <+: lowerL (c2.drop j) := hd.map _
    rw [he] at hmap
    have hlen : (lowerL (c1.drop j)).length = c1.length - j := by
      simp [lowerL]
    have := List.prefix_iff_eq_take.mp hmap
    rw [this, hlen]
    have hmin : min (c1.length - j) (c2.length - j) = c1.length - j := by omega
    simp [lowerL, List.map_take, List.take_take, hmin]
  have hcut : k1 ≤ k2 := by
    by_contra hlt
    push_neg at hlt
    -- k2 < k1 ≤ c1.length, so c2 has a partial match at k2 strictly before k1
    have hk2spec := hk2
    cases h2 : getPartialTagStart c2 sp CODE_TAG_CLOSE with
    | none =>
      rw [h2] at hk2
      simp at hk2
      omega
    | some p2 =>
      rw [h2] at hk2
      simp at hk2
      obtain ⟨hs2, hlt2, hb2, he2, _⟩ := getPartialTagStart_some_spec h2
      have hp2c1 : p2 < c1.length := by omega
      have he1 : lowerL (c1.drop p2) = lowerL (CODE_TAG_CLOSE.take (c1.length - p2)) := by
        apply transfer p2 hp2c1
        rw [← hk2] at he2 ⊢
        exact he2
      cases h1 : getPartialTagStart c1 sp CODE_TAG_CLOSE with
      | none =>
        exact getPartialTagStart_none_spec h1 p2 (by omega) hp2c1 (by omega) he1
      | some p1 =>
        rw [h1] at hk1
        simp at hk1
        obtain ⟨_, _, _, _, hmin1⟩ := getPartialTagStart_some_spec h1
        exact hmin1 p2 (by omega) (by omega) (by omega) he1
  -- now compare the slices
  show jsSlice c1 sp k1 <+: jsSlice c2 sp k2
  unfold jsSlice
  have hdq : c1.drop sp <+: c2.drop sp := prefix_drop hp sp
  have htake_eq : (c1.drop sp).take (k1 - sp) = (c2.drop sp).take (k1 - sp) := by
    apply prefix_take_eq hdq
    simp
    omega
  rw [htake_eq]
  have : (c2.drop sp).take (k1 - sp) = ((c2.drop sp).take (k2 - sp)).take (k1 - sp) := by
    rw [List.take_take, show min (k1 - sp) (k2 - sp) = k1 - sp by omega]
  rw [this]
  exact List.take_prefix _ _


set_option maxRecDepth 400000 in
/-- Witness for `C3_monotonic_growth_amended` on the counterexample run's
buffers (code start position 71): raw slices `"&amp"` and `"&amp;"`. -/
theorem C3_monotonic_growth_amended_witness :
    codeUpdateRaw c3frag1 71 <+: codeUpdateRaw (c3frag1 ++ ";".toList) 71 :=
  C3_monotonic_growth_amended c3frag1 (c3frag1 ++ ";".toList) 71 (by decide)


/-! ## Claim C6 — malformed open tag handling -/

lemma isTagAt_zero_prepend (tag r : List Char) : isTagAt (tag ++ r) 0 tag = true := by
  simp [isTagAt, List.take_left]

lemma findTagIndex_self {c tag : List Char} {i : Nat} (h : isTagAt c i tag = true)
    (hi : i ≤ c.length) : findTagIndex c i tag = some i := by
  unfold findTagIndex
  have : c.length + 1 - i = (c.length - i) + 1 := by omega
  rw [this, findTagIdxAux, if_pos h]

lemma findIdx?_append_shift {p : Char → Bool} (l r : List Char)
    (hl : ∀ y ∈ l, p y = false) :
    ∀ i, List.findIdx? p (l ++ r) i = List.findIdx? p r (i + l.length) := by
  induction l with
  | nil => intro i; simp
  | cons c tl ih =>
    intro i
    rw [List.cons_append, List.findIdx?_cons, if_neg (by simp [hl c (by simp)])]
    rw [ih (fun y hy => hl y (by simp [hy])) (i + 1)]
    congr 1
    simp
    omega

lemma findTagEnd_concat (a : List Char) (hgt : ∀ ch ∈ a, ch ≠ '>') :
    findTagEnd (ARTIFACT_TAG_OPEN ++ a ++ ['>']) ARTIFACT_TAG_OPEN.length =
      some (ARTIFACT_TAG_OPEN.length + a.length) := by
  unfold findTagEnd
  rw [List.append_assoc, List.drop_left]
  rw [findIdx?_append_shift a ['>'] (by intro y hy; simp [hgt y hy]) 0]
  rw [List.findIdx?_cons]
  simp
  omega

lemma jsSlice_middle (a : List Char) :
    jsSlice (ARTIFACT_TAG_OPEN ++ a ++ ['>']) ARTIFACT_TAG_OPEN.length
      (ARTIFACT_TAG_OPEN.length + a.length) = a := by
  unfold jsSlice
  rw [List.append_assoc, List.drop_left]
  rw [show ARTIFACT_TAG_OPEN.length + a.length - ARTIFACT_TAG_OPEN.length = a.length by omega]
  rw [List.take_left]

/-- The checks `parseArtifactStart` makes on an attribute string: the tag
is malformed when a required attribute reads falsy or the type is not in
the accepted set. -/
def malformedAttrs (a : List Char) : Prop :=
  attrGet (parseAttributes a) "id".toList = [] ∨
    attrGet (parseAttributes a) "type".toList = [] ∨
    attrGet (parseAttributes a) "title".toList = [] ∨
    (attrGet (parseAttributes a) "type".toList ≠ "react".toList ∧
      attrGet (parseAttributes a) "type".toList ≠ "component".toList)

lemma parseArtifactStart_malformed (a : List Char) (hgt : ∀ ch ∈ a, ch ≠ '>')
    (hbad : malformedAttrs a) :
    ∃ msg ctx, parseArtifactStart (ARTIFACT_TAG_OPEN ++ a ++ ['>']) 0 =
      (⟨false, ARTIFACT_TAG_OPEN.length + a.length + 1, none, none, false⟩,
        some (PEvent.error msg 0 ctx)) := by
  have h1 : findTagIndex (ARTIFACT_TAG_OPEN ++ a ++ ['>']) 0 ARTIFACT_TAG_OPEN = some 0 := by
    apply findTagIndex_self
    · rw [List.append_assoc]; exact isTagAt_zero_prepend _ _
    · simp
  unfold parseArtifactStart
  rw [h1]
  simp only [Nat.zero_add]
  rw [findTagEnd_concat a hgt]
  simp only [jsSlice_middle a]
  by_cases hmiss : attrGet (parseAttributes a) "id".toList = [] ∨
      attrGet (parseAttributes a) "type".toList = [] ∨
      attrGet (parseAttributes a) "title".toList = []
  · rw [if_pos hmiss]
    exact ⟨_, _, rfl⟩
  · have hty : attrGet (parseAttributes a) "type".toList ≠ "react".toList ∧
        attrGet (parseAttributes a) "type".toList ≠ "component".toList := by
      rcases hbad with h | h | h | h
      · exact absurd (Or.inl h) hmiss
      · exact absurd (Or.inr (Or.inl h)) hmiss
      · exact absurd (Or.inr (Or.inr h)) hmiss
      · exact h
    rw [if_neg hmiss, if_pos hty]
    exact ⟨_, _, rfl⟩

lemma parseLoop_stop (mid content : List Char) (pos : Nat) (st : ParserState)
    (evs : List PEvent) (fuel : Nat) (h : ¬ pos < content.length) :
    parseLoop mid content pos st evs fuel = (pos, st, evs) := by
  cases fuel with
  | zero => rfl
  | succ f => rw [parseLoop, if_neg h]

lemma parseLoop_break (mid content : List Char) {pos : Nat} {st : ParserState}
    {evs : List PEvent} (fuel : Nat) {r : Nat × ParserState × List PEvent}
    (hpos : pos < content.length)
    (h : loopIter mid content pos st evs = .inl r) :
    parseLoop mid content pos st evs (fuel + 1) = r := by
  rw [parseLoop, if_pos hpos, h]

lemma parseLoop_continue (mid content : List Char) {pos : Nat} {st : ParserState}
    {evs : List PEvent} (fuel : Nat) {pos2 : Nat} {st2 : ParserState} {evs2 : List PEvent}
    (hpos : pos < content.length)
    (h : loopIter mid content pos st evs = .inr (pos2, st2, evs2)) :
    parseLoop mid content pos st evs (fuel + 1) =
      parseLoop mid content pos2 st2 evs2 fuel := by
  rw [parseLoop, if_pos hpos, h]

lemma loopIter_searching (mid content : List Char) (pos : Nat) {st : ParserState}
    (evs : List PEvent) (hart : st.insideArtifact = false) :
    loopIter mid content pos st evs = searchingIter mid content pos st evs := by
  rw [loopIter, hart]
  rfl

lemma parse_eval (st : ParserState) (nc : List Char) :
    parse st nc =
      (fun res => ({ res.2.1 with position := res.1 }, res.2.2))
        (parseLoop st.messageId (st.fullContent ++ nc) st.position
          { st with fullContent := st.fullContent ++ nc } []
          ((st.fullContent ++ nc).length + 1)) := rfl

lemma searchingIter_skip (mid content : List Char) (pos : Nat) (st : ParserState)
    (evs : List PEvent) {r : ArtifactStartResult} {ev : Option PEvent}
    (hr : parseArtifactStart content pos = (r, ev))
    (hsucc : r.success = false) (hinc : r.incomplete = false) (hend : pos < r.endPos) :
    searchingIter mid content pos st evs = .inr (r.endPos, st, evs ++ ev.toList) := by
  rw [searchingIter, hr]
  simp only [hsucc, hinc, Bool.not_false, if_true, Bool.false_eq_true, if_false, if_pos hend]

/-- Claim C6: a fully buffered open-artifact tag whose attribute text is
malformed — a required attribute (`id`, `type`, `title`) missing (or
empty, which the source's falsy check treats the same) or the type not in
the accepted set — makes `parse` fire `onError` exactly once for the tag,
fire no `onArtifactStart`, advance the cursor past the whole tag, and stay
in SEARCHING mode (all flags false, no artifact in progress) so later
artifacts are still parsed.  The embedding is a total function, so no
exception can be raised on any input. -/
theorem C6_malformed_open_tag :
    ∀ (mid a : List Char), (∀ ch ∈ a, ch ≠ '>') → malformedAttrs a →
      ((parse (initState mid) (ARTIFACT_TAG_OPEN ++ a ++ ['>'])).2.filter
          PEvent.isErrorEvent).length = 1 ∧
      (parse (initState mid) (ARTIFACT_TAG_OPEN ++ a ++ ['>'])).2.filter
          PEvent.isArtifactStart = [] ∧
      (parse (initState mid) (ARTIFACT_TAG_OPEN ++ a ++ ['>'])).1.insideArtifact = false ∧
      (parse (initState mid) (ARTIFACT_TAG_OPEN ++ a ++ ['>'])).1.insideCode = false ∧
      (parse (initState mid) (ARTIFACT_TAG_OPEN ++ a ++ ['>'])).1.insideConfig = false ∧
      (parse (initState mid) (ARTIFACT_TAG_OPEN ++ a ++ ['>'])).1.currentArtifact = none ∧
      (parse (initState mid) (ARTIFACT_TAG_OPEN ++ a ++ ['>'])).1.position =
        (ARTIFACT_TAG_OPEN ++ a ++ ['>']).length := by
  intro mid a hgt hbad
  obtain ⟨msg, ctx, hpas⟩ := parseArtifactStart_malformed a hgt hbad
  have hopen : ARTIFACT_TAG_OPEN.length = 15 := rfl
  have hclen : (ARTIFACT_TAG_OPEN ++ a ++ ['>']).length = a.length + 16 := by
    rw [List.length_append, List.length_append, hopen, List.length_singleton]
    omega
  have hrun : parse (initState mid) (ARTIFACT_TAG_OPEN ++ a ++ ['>']) =
      ({ initState mid with
          fullContent := ARTIFACT_TAG_OPEN ++ a ++ ['>'],
          position := ARTIFACT_TAG_OPEN.length + a.length + 1 },
        [PEvent.error msg 0 ctx]) := by
    rw [parse_eval]
    have hfc : (initState mid).fullContent ++ (ARTIFACT_TAG_OPEN ++ a ++ ['>']) =
        ARTIFACT_TAG_OPEN ++ a ++ ['>'] := rfl
    rw [hfc]
    rw [show (ARTIFACT_TAG_OPEN ++ a ++ ['>']).length + 1 = (a.length + 16) + 1 by omega]
    rw [show (initState mid).position = 0 from rfl]
    rw [parseLoop_continue _ _ (a.length + 16) (by omega)
      (by
        rw [loopIter_searching _ _ _ _ rfl]
        exact searchingIter_skip _ _ _ _ _ hpas rfl rfl
          (show (0:Nat) < ARTIFACT_TAG_OPEN.length + a.length + 1 by omega))]
    rw [parseLoop_stop _ _ _ _ _ _
      (by
        show ¬ ARTIFACT_TAG_OPEN.length + a.length + 1 < (ARTIFACT_TAG_OPEN ++ a ++ ['>']).length
        rw [hclen, hopen]
        omega)]
    rfl
  rw [hrun]
  refine ⟨rfl, rfl, rfl, rfl, rfl, rfl, by
    show ARTIFACT_TAG_OPEN.length + a.length + 1 = _
    omega⟩


set_option maxRecDepth 400000 in
/-- Witness for `C6_malformed_open_tag`: the open tag
`<canvasArtifact id="x">` (missing `type` and `title`). -/
theorem C6_malformed_open_tag_witness :
    ((parse (initState "m".toList) (ARTIFACT_TAG_OPEN ++ " id=\"x\"".toList ++ ['>'])).2.filter
        PEvent.isErrorEvent).length = 1 ∧
    (parse (initState "m".toList) (ARTIFACT_TAG_OPEN ++ " id=\"x\"".toList ++ ['>'])).2.filter
        PEvent.isArtifactStart = [] ∧
    (parse (initState "m".toList)
        (ARTIFACT_TAG_OPEN ++ " id=\"x\"".toList ++ ['>'])).1.insideArtifact = false ∧
    (parse (initState "m".toList)
        (ARTIFACT_TAG_OPEN ++ " id=\"x\"".toList ++ ['>'])).1.insideCode = false ∧
    (parse (initState "m".toList)
        (ARTIFACT_TAG_OPEN ++ " id=\"x\"".toList ++ ['>'])).1.insideConfig = false ∧
    (parse (initState "m".toList)
        (ARTIFACT_TAG_OPEN ++ " id=\"x\"".toList ++ ['>'])).1.currentArtifact = none ∧
    (parse (initState "m".toList) (ARTIFACT_TAG_OPEN ++ " id=\"x\"".toList ++ ['>'])).1.position =
      (ARTIFACT_TAG_OPEN ++ " id=\"x\"".toList ++ ['>']).length :=
  C6_malformed_open_tag "m".toList " id=\"x\"".toList (by decide)
    (by unfold malformedAttrs; decide)


/-! ## Claim C7 — same-pass double completion

Characterizations of `findTagIndex`, event-append monotonicity of the
loop, and the double-close behavior of the CODE state. -/

lemma findTagIdxAux_some_spec (c tag : List Char) :
    ∀ (fuel i k : Nat), findTagIdxAux c tag i fuel = some k →
      i ≤ k ∧ isTagAt c k tag = true ∧ ∀ j, i ≤ j → j < k → isTagAt c j tag = false := by
  intro fuel
  induction fuel with
  | zero => intro i k h; simp [findTagIdxAux] at h
  | succ fuel ih =>
    intro i k h
    rw [findTagIdxAux] at h
    by_cases hi : isTagAt c i tag = true
    · rw [if_pos hi] at h
      injection h with h
      subst h
      exact ⟨le_refl _, hi, fun j h1 h2 => absurd (le_antisymm (by omega) h1) (by omega)⟩
    · rw [if_neg hi] at h
      obtain ⟨h1, h2, h3⟩ := ih (i + 1) k h
      refine ⟨by omega, h2, ?_⟩
      intro j hj1 hj2
      by_cases hji : j = i
      · subst hji; exact Bool.not_eq_true _ ▸ (by simpa using hi)
      · exact h3 j (by omega) hj2

lemma findTagIndex_some_spec {c tag : List Char} {s k : Nat}
    (h : findTagIndex c s tag = some k) :
    s ≤ k ∧ isTagAt c k tag = true ∧ ∀ j, s ≤ j → j < k → isTagAt c j tag = false :=
  findTagIdxAux_some_spec c tag _ s k h

lemma findTagIdxAux_none_spec (c tag : List Char) :
    ∀ (fuel i : Nat), findTagIdxAux c tag i fuel = none →
      ∀ j, i ≤ j → j < i + fuel → isTagAt c j tag = false := by
  intro fuel
  induction fuel with
  | zero => intro i _ j _ _; omega
  | succ fuel ih =>
    intro i h j hj1 hj2
    rw [findTagIdxAux] at h
    by_cases hi : isTagAt c i tag = true
    · rw [if_pos hi] at h; exact absurd h (by simp)
    · rw [if_neg hi] at h
      by_cases hji : j = i
      · subst hji; exact Bool.not_eq_true _ ▸ (by simpa using hi)
      · exact ih (i + 1) h j (by omega) (by omega)

lemma isTagAt_le {c tag : List Char} {i : Nat} (h : isTagAt c i tag = true)
    (ht : tag ≠ []) : i + tag.length ≤ c.length := by
  unfold isTagAt at h
  rw [decide_eq_true_eq] at h
  have hlen := congrArg List.length h
  simp only [lowerL, List.length_map, List.length_take, List.length_drop] at hlen
  have : tag.length ≠ 0 := by
    intro h0
    exact ht (List.length_eq_zero.mp h0)
  omega

lemma findTagIndex_none_spec {c tag : List Char} {s : Nat}
    (h : findTagIndex c s tag = none) (ht : tag ≠ []) :
    ∀ j, s ≤ j → isTagAt c j tag = false := by
  intro j hj
  by_cases hjb : j < s + (c.length + 1 - s)
  · exact findTagIdxAux_none_spec c tag _ s h j hj hjb
  · by_contra htag
    rw [Bool.not_eq_false] at htag
    have := isTagAt_le htag ht
    have : tag.length ≠ 0 := fun h0 => ht (List.length_eq_zero.mp h0)
    omega

/-- The event list carried by a loop step (break or continue). -/
def evsOf : LoopStep → List PEvent := Sum.elim (·.2.2) (·.2.2)

lemma completeArtifact_evs (mid : List Char) (st : ParserState) (evs : List PEvent) :
    ∃ t, (completeArtifact mid st evs).2 = evs ++ t := by
  unfold completeArtifact
  cases st.currentArtifact with
  | none => exact ⟨[], by simp⟩
  | some ca => exact ⟨_, rfl⟩

lemma searchingIter_evs (mid content : List Char) (pos : Nat) (st : ParserState)
    (evs : List PEvent) : ∃ t, evsOf (searchingIter mid content pos st evs) = evs ++ t := by
  simp only [searchingIter, evsOf]
  split_ifs
  all_goals simp

lemma artifactIter_evs (mid content : List Char) (pos : Nat) (st : ParserState)
    (evs : List PEvent) : ∃ t, evsOf (artifactIter mid content pos st evs) = evs ++ t := by
  simp only [artifactIter, evsOf]
  obtain ⟨t, ht⟩ := completeArtifact_evs mid st evs
  repeat' split
  all_goals simp [ht]

lemma codeIter_evs (mid content : List Char) (pos : Nat) (st : ParserState)
    (evs : List PEvent) : ∃ t, evsOf (codeIter mid content pos st evs) = evs ++ t := by
  unfold codeIter
  cases hcc : st.currentCode with
  | none =>
    simp only [hcc]
    cases hfind : findTagIndex content pos CODE_TAG_CLOSE with
    | none => exact ⟨[], by simp [evsOf]⟩
    | some codeEnd =>
      simp only [evsOf]
      obtain ⟨t, ht⟩ := completeArtifact_evs mid
        { st with currentCode := none, insideCode := false } evs
      repeat' split
      · exact ⟨t, by simpa using ht⟩
      · exact ⟨[], by simp⟩
  | some cc =>
    cases hca : st.currentArtifact with
    | none =>
      simp only [hcc, hca]
      cases hfind : findTagIndex content pos CODE_TAG_CLOSE with
      | none => exact ⟨[], by simp [evsOf]⟩
      | some codeEnd =>
        simp only [evsOf]
        obtain ⟨t, ht⟩ := completeArtifact_evs mid
          { st with currentArtifact := none, currentCode := some { cc with content := unescapeXML (jsSlice content cc.startPosition codeEnd) }, insideCode := false }
          (evs ++ [PEvent.codeComplete cc.language (unescapeXML (jsSlice content cc.startPosition codeEnd))])
        repeat' split
        · refine ⟨[PEvent.codeComplete cc.language (unescapeXML (jsSlice content cc.startPosition codeEnd))] ++ t, ?_⟩
          simp only [Sum.elim_inr]
          rw [ht, List.append_assoc]
        · exact ⟨_, rfl⟩
    | some ca =>
      simp only [hcc, hca]
      cases hfind : findTagIndex content pos CODE_TAG_CLOSE with
      | none =>
        exact ⟨[PEvent.codeUpdate mid ca.id cc.language (unescapeXML (jsSlice content cc.startPosition ((getPartialTagStart content cc.startPosition CODE_TAG_CLOSE).getD content.length)))], by simp [evsOf]⟩
      | some codeEnd =>
        simp only [evsOf]
        obtain ⟨t, ht⟩ := completeArtifact_evs mid
          { st with currentArtifact := some ca, currentCode := some { cc with content := unescapeXML (jsSlice content cc.startPosition codeEnd) }, insideCode := false }
          (evs ++ [PEvent.codeComplete cc.language (unescapeXML (jsSlice content cc.startPosition codeEnd))])
        repeat' split
        · refine ⟨[PEvent.codeComplete cc.language (unescapeXML (jsSlice content cc.startPosition codeEnd))] ++ t, ?_⟩
          simp only [Sum.elim_inr]
          rw [ht, List.append_assoc]
        · exact ⟨_, rfl⟩

lemma configIter_evs (mid content : List Char) (pos : Nat) (st : ParserState)
    (evs : List PEvent) : ∃ t, evsOf (configIter mid content pos st evs) = evs ++ t := by
  unfold configIter
  cases hcfg : st.currentConfig with
  | none =>
    simp only [hcfg]
    cases hfind : findTagIndex content pos CONFIG_TAG_CLOSE with
    | none => exact ⟨[], by simp [evsOf]⟩
    | some configEnd =>
      simp only [evsOf]
      obtain ⟨t, ht⟩ := completeArtifact_evs mid
        { st with currentConfig := none, insideConfig := false } evs
      repeat' split
      · exact ⟨t, by simpa using ht⟩
      · exact ⟨[], by simp⟩
      · exact ⟨[], by simp⟩
  | some cfg =>
    simp only [hcfg]
    cases hfind : findTagIndex content pos CONFIG_TAG_CLOSE with
    | none => exact ⟨[], by simp [evsOf]⟩
    | some configEnd =>
      simp only [evsOf]
      obtain ⟨t, ht⟩ := completeArtifact_evs mid
        { st with currentConfig := some ⟨jsSlice content pos configEnd⟩, insideConfig := false } evs
      repeat' split
      · exact ⟨t, by simpa using ht⟩
      · exact ⟨[], by simp⟩
      · exact ⟨[], by simp⟩

lemma loopIter_evs (mid content : List Char) (pos : Nat) (st : ParserState)
    (evs : List PEvent) : ∃ t, evsOf (loopIter mid content pos st evs) = evs ++ t := by
  unfold loopIter
  split_ifs
  · exact searchingIter_evs mid content pos st evs
  · exact artifactIter_evs mid content pos st evs
  · exact codeIter_evs mid content pos st evs
  · exact configIter_evs mid content pos st evs

lemma parseLoop_evs_mono (mid content : List Char) :
    ∀ (fuel pos : Nat) (st : ParserState) (evs : List PEvent),
      ∃ t, (parseLoop mid content pos st evs fuel).2.2 = evs ++ t := by
  intro fuel
  induction fuel with
  | zero => intro pos st evs; exact ⟨[], by simp [parseLoop]⟩
  | succ fuel ih =>
    intro pos st evs
    rw [parseLoop]
    by_cases hpos : pos < content.length
    · rw [if_pos hpos]
      obtain ⟨t, ht⟩ := loopIter_evs mid content pos st evs
      cases hit : loopIter mid content pos st evs with
      | inl r =>
        refine ⟨t, ?_⟩
        rw [hit] at ht
        simpa [evsOf] using ht
      | inr r =>
        obtain ⟨pos2, st2, evs2⟩ := r
        rw [hit] at ht
        simp only [evsOf, Sum.elim_inr] at ht
        obtain ⟨t2, ht2⟩ := ih pos2 st2 evs2
        refine ⟨t ++ t2, ?_⟩
        rw [ht2, ht, List.append_assoc]
    · rw [if_neg hpos]
      exact ⟨[], by simp⟩

lemma parseLoop_evs_mem (mid content : List Char) (fuel pos : Nat) (st : ParserState)
    (evs : List PEvent) {e : PEvent} (he : e ∈ evs) :
    e ∈ (parseLoop mid content pos st evs fuel).2.2 := by
  obtain ⟨t, ht⟩ := parseLoop_evs_mono mid content fuel pos st evs
  rw [ht]
  exact List.mem_append_left _ he

lemma isJsSpace_eq_false_of_lower_lt {c : Char} (h : c.toLower = '<') :
    isJsSpace c = false := by
  by_contra hb
  rw [Bool.not_eq_false] at hb
  simp only [isJsSpace, Bool.or_eq_true, decide_eq_true_eq] at hb
  rcases hb with ((((((rfl | rfl) | rfl) | rfl) | rfl) | rfl) | rfl) | rfl <;>
    exact absurd h (by decide)

lemma head_lower_of_isTagAt {content : List Char} {i : Nat}
    (h : isTagAt content i ARTIFACT_TAG_CLOSE = true) :
    ∃ c0 rest, content.drop i = c0 :: rest ∧ c0.toLower = '<' := by
  unfold isTagAt at h
  rw [decide_eq_true_eq] at h
  have hget := congrArg (fun l => l.get? 0) h
  simp only [lowerL, List.get?_map] at hget
  cases hD : content.drop i with
  | nil =>
    rw [hD] at hget
    simp only [List.take_nil, List.getElem?_nil, Option.map_none] at hget
    exact absurd hget (by decide)
  | cons c0 rest =>
    rw [hD] at hget
    have h17 : (0:Nat) < ARTIFACT_TAG_CLOSE.length := by decide
    rw [List.get?_take h17] at hget
    simp only [List.get?_cons_zero, Option.map_some] at hget
    refine ⟨c0, rest, rfl, ?_⟩
    have : (ARTIFACT_TAG_CLOSE.get? 0).map Char.toLower = some '<' := by decide
    rw [this] at hget
    injection hget

lemma codeIter_double_close (mid content : List Char) (pos : Nat) (st : ParserState)
    (evs : List PEvent) (cc : CurCode) (ca : CurArtifact) (k : Nat)
    (hcc : st.currentCode = some cc) (hca : st.currentArtifact = some ca)
    (hfind : findTagIndex content pos CODE_TAG_CLOSE = some k)
    (hclose : isTagAt content (k + CODE_TAG_CLOSE.length) ARTIFACT_TAG_CLOSE = true) :
    ∃ st4 e1 e2, codeIter mid content pos st evs =
      .inr (k + CODE_TAG_CLOSE.length + ARTIFACT_TAG_CLOSE.length, st4, (evs ++ [e1]) ++ [e2]) ∧
      PEvent.isCodeComplete e1 = true ∧ PEvent.isArtifactComplete e2 = true := by
  have hlen : k + CODE_TAG_CLOSE.length + ARTIFACT_TAG_CLOSE.length ≤ content.length := by
    have := isTagAt_le hclose (by decide)
    omega
  obtain ⟨c0, rest, hD, hc0⟩ := head_lower_of_isTagAt hclose
  unfold codeIter
  rw [hfind]
  simp only [hcc]
  rw [hD, List.findIdx?_cons]
  rw [if_pos (by rw [isJsSpace_eq_false_of_lower_lt hc0]; rfl)]
  simp only [Nat.add_zero]
  rw [findTagIndex_self hclose (by omega)]
  unfold completeArtifact
  simp only [hca]
  exact ⟨_, _, _, rfl, rfl, rfl⟩

lemma loopIter_code {mid content : List Char} {pos : Nat} {st : ParserState}
    {evs : List PEvent} (hart : st.insideArtifact = true) (hcode : st.insideCode = true) :
    loopIter mid content pos st evs = codeIter mid content pos st evs := by
  rw [loopIter, hart, hcode]
  rfl

/-- Claim C7: whenever the parser is in CODE state (an artifact and a code
block in progress) and the buffered content has the first code-close tag
immediately followed by an artifact-close tag, a single `parse` call emits
both `onCodeComplete` and `onArtifactComplete`. -/
theorem C7_same_pass_double_completion :
    ∀ (st : ParserState) (frag : List Char) (ca : CurArtifact) (cc : CurCode) (k : Nat),
      st.insideArtifact = true → st.insideCode = true →
      st.currentArtifact = some ca → st.currentCode = some cc →
      findTagIndex (st.fullContent ++ frag) st.position CODE_TAG_CLOSE = some k →
      isTagAt (st.fullContent ++ frag) (k + CODE_TAG_CLOSE.length) ARTIFACT_TAG_CLOSE = true →
      (∃ e ∈ (parse st frag).2, PEvent.isCodeComplete e = true) ∧
      (∃ e ∈ (parse st frag).2, PEvent.isArtifactComplete e = true) := by
  intro st frag ca cc k hart hcode hca hcc hfind hclose
  have hpos : st.position < (st.fullContent ++ frag).length := by
    obtain ⟨h1, h2, _⟩ := findTagIndex_some_spec hfind
    have h3 := isTagAt_le h2 (show CODE_TAG_CLOSE ≠ [] by decide)
    have h13 : CODE_TAG_CLOSE.length = 13 := rfl
    omega
  obtain ⟨st4, e1, e2, hiter, he1, he2⟩ :=
    codeIter_double_close st.messageId (st.fullContent ++ frag) st.position
      { st with fullContent := st.fullContent ++ frag } [] cc ca k hcc hca hfind hclose
  have hloop : loopIter st.messageId (st.fullContent ++ frag) st.position
      { st with fullContent := st.fullContent ++ frag } [] =
      .inr (k + CODE_TAG_CLOSE.length + ARTIFACT_TAG_CLOSE.length, st4, ([] ++ [e1]) ++ [e2]) := by
    rw [@loopIter_code st.messageId (st.fullContent ++ frag) st.position
      { st with fullContent := st.fullContent ++ frag } [] hart hcode]
    exact hiter
  have hev : (parse st frag).2 =
      (parseLoop st.messageId (st.fullContent ++ frag)
        (k + CODE_TAG_CLOSE.length + ARTIFACT_TAG_CLOSE.length) st4 (([] ++ [e1]) ++ [e2])
        (st.fullContent ++ frag).length).2.2 := by
    rw [parse_eval, parseLoop_continue _ _ (st.fullContent ++ frag).length hpos hloop]
  rw [hev]
  constructor
  · exact ⟨e1, parseLoop_evs_mem _ _ _ _ _ _ (by simp), he1⟩
  · exact ⟨e2, parseLoop_evs_mem _ _ _ _ _ _ (by simp), he2⟩


/-- The CODE-state parser state used as the witness input. -/
def c7state : ParserState :=
  { position := 0, insideArtifact := true, insideCode := true, insideConfig := false
    currentArtifact := some ⟨"a".toList, "react".toList, "t".toList⟩
    currentCode := some ⟨"x".toList, [], 0⟩
    currentConfig := none, fullContent := [], messageId := "m".toList }

set_option maxRecDepth 400000 in
/-- Witness for `C7_same_pass_double_completion`: the fragment
`</canvasCode></canvasArtifact>` arriving in CODE state. -/
theorem C7_same_pass_double_completion_witness :
    (∃ e ∈ (parse c7state "</canvasCode></canvasArtifact>".toList).2,
      PEvent.isCodeComplete e = true) ∧
    (∃ e ∈ (parse c7state "</canvasCode></canvasArtifact>".toList).2,
      PEvent.isArtifactComplete e = true) :=
  C7_same_pass_double_completion c7state "</canvasCode></canvasArtifact>".toList
    ⟨"a".toList, "react".toList, "t".toList⟩ ⟨"x".toList, [], 0⟩ 0
    rfl rfl rfl rfl (by decide) (by decide)

/-- A strict partial tag match: the suffix of `c` starting at `j` is a
nonempty strict prefix of `tag` (the success condition of
`getPartialTagStart` at start `j`). -/
def psAt (c : List Char) (j : Nat) (tag : List Char) : Prop :=
  j < c.length ∧ c.length - j ≤ tag.length - 1 ∧
    lowerL (c.drop j) = lowerL (tag.take (c.length - j))

/-- The state-flag invariant: each of `insideCode` / `insideConfig`
implies `insideArtifact` and excludes the other. -/
def FlagsOk (s : ParserState) : Prop :=
  (s.insideCode = true → s.insideArtifact = true ∧ s.insideConfig = false) ∧
  (s.insideConfig = true → s.insideArtifact = true ∧ s.insideCode = false)

/-- The tags (with their partial-search lower bounds) whose partial
prefixes the scanner may stop at in the state's mode. -/
def pendingTags (s : ParserState) : List (List Char × Nat) :=
  if s.insideArtifact = false then [(ARTIFACT_TAG_OPEN, 0)]
  else if s.insideCode = false ∧ s.insideConfig = false then
    [(CODE_TAG_OPEN, 0), (CONFIG_TAG_OPEN, 0), (ARTIFACT_TAG_CLOSE, 0)]
  else if s.insideCode = true then
    [(CODE_TAG_CLOSE, (s.currentCode.map (fun cc => cc.startPosition)).getD 0)]
  else [(CONFIG_TAG_CLOSE, 0)]

/-- No pending tag has a partial match strictly before the cursor: the
property that makes the partial-tag searches never move the cursor
backwards. -/
def JInv (content : List Char) (pos : Nat) (s : ParserState) : Prop :=
  ∀ p ∈ pendingTags s, ∀ j, p.2 ≤ j → j < pos → ¬ psAt content j p.1

/-- The loop invariant carried through `parseLoop`. -/
def LoopInv (content : List Char) (pos : Nat) (s : ParserState) : Prop :=
  FlagsOk s ∧ s.fullContent = content ∧ pos ≤ content.length ∧ JInv content pos s

lemma getPartialTagStart_psAt {c tag : List Char} {sp p : Nat}
    (h : getPartialTagStart c sp tag = some p) : sp ≤ p ∧ psAt c p tag := by
  obtain ⟨h1, h2, h3, h4, _⟩ := getPartialTagStart_some_spec h
  exact ⟨h1, h2, h3, h4⟩

lemma getPartialTagStart_min {c tag : List Char} {sp p : Nat}
    (h : getPartialTagStart c sp tag = some p) :
    ∀ j, sp ≤ j → j < p → ¬ psAt c j tag := by
  intro j hj1 hj2 ⟨hA, hB, hC⟩
  exact (getPartialTagStart_some_spec h).2.2.2.2 j hj1 hj2 hB hC

lemma getPartialTagStart_none_psAt {c tag : List Char} {sp : Nat}
    (h : getPartialTagStart c sp tag = none) :
    ∀ j, sp ≤ j → ¬ psAt c j tag := by
  intro j hj ⟨hA, hB, hC⟩
  exact getPartialTagStart_none_spec h j hj hA hB hC

lemma isTagAt_char {content tag : List Char} {ts idx : Nat}
    (h : isTagAt content ts tag = true) (hidx : idx < tag.length) :
    (content.get? (ts + idx)).map Char.toLower = (lowerL tag).get? idx := by
  unfold isTagAt at h
  rw [decide_eq_true_eq] at h
  have hg := congrArg (fun l => l.get? idx) h
  simp only [lowerL, List.get?_map] at hg ⊢
  rw [List.get?_take hidx, List.get?_drop] at hg
  exact hg

/-- Refute a partial tag match from a known character inside it: the
suffix contains (the lowering of) some character at offset `k - j` that
the tag's strict-prefix region does not contain. -/
lemma no_psAt_of_char {content : List Char} {j k : Nat} {tag : List Char} {ch : Char}
    (hk : (content.get? k).map Char.toLower = some ch) (hjk : j ≤ k) (hkL : k < content.length)
    (hnot : ∀ idx, k - j ≤ idx → idx < tag.length - 1 → (lowerL tag).get? idx ≠ some ch) :
    ¬ psAt content j tag := by
  intro ⟨hjL, hbound, heq⟩
  have hg := congrArg (fun l => l.get? (k - j)) heq
  simp only [lowerL, List.get?_map] at hg
  rw [List.get?_drop] at hg
  rw [show j + (k - j) = k by omega] at hg
  rw [hk] at hg
  have hlt : k - j < content.length - j := by omega
  rw [List.get?_take hlt] at hg
  refine hnot (k - j) (le_refl _) (by omega) ?_
  simp only [lowerL, List.get?_map]
  exact hg.symm

lemma findTagEnd_spec {c : List Char} {s k : Nat} (h : findTagEnd c s = some k) :
    s ≤ k ∧ k < c.length ∧ (c.get? k).map Char.toLower = some '>' := by
  unfold findTagEnd at h
  cases hf : (c.drop s).findIdx? (fun ch => ch = '>') with
  | none => rw [hf] at h; exact absurd h (by simp)
  | some i =>
    rw [hf] at h
    have hk : i + s = k := by simpa using h
    have h1 := List.findIdx?_eq_some_iff_findIdx_eq.mp hf
    have h2 : i < (c.drop s).length := h1.1
    have hp : (c.drop s).findIdx (fun ch => ch = '>') = i := h1.2
    have h2p : (List.drop s c).findIdx (fun ch => ch = '>') < (List.drop s c).length :=
      hp ▸ h2
    have hfi := @List.findIdx_getElem _ _ _ h2p
    simp only [hp] at hfi
    have hL : s + i < c.length := by
      have := c.length_drop s ▸ h2
      simp [List.length_drop] at h2
      omega
    refine ⟨by omega, by omega, ?_⟩
    have hge : (c.drop s).get? i = c.get? (s + i) := List.get?_drop c s i
    rw [← hk, show i + s = s + i by omega, ← hge, List.get?_eq_getElem?,
      List.getElem?_eq_getElem h2]
    have hch : (c.drop s)[i] = '>' := decide_eq_true_eq.mp hfi
    rw [hch]
    decide

lemma psAt_extend {c d tag : List Char} {j : Nat}
    (h : psAt (c ++ d) j tag) (hj : j < c.length) : psAt c j tag := by
  obtain ⟨h1, h2, h3⟩ := h
  rw [List.length_append] at h2
  refine ⟨hj, by omega, ?_⟩
  have hpre : c <+: c ++ d := ⟨d, rfl⟩
  have hd : c.drop j <+: (c ++ d).drop j := prefix_drop hpre j
  have hmap : lowerL (c.drop j) <+: lowerL ((c ++ d).drop j) := hd.map _
  rw [h3] at hmap
  have hlen : (lowerL (c.drop j)).length = c.length - j := by simp [lowerL]
  have := List.prefix_iff_eq_take.mp hmap
  rw [this, hlen]
  have hmin : min (c.length - j) ((c ++ d).length - j) = c.length - j := by
    rw [List.length_append]; omega
  simp [lowerL, List.map_take, List.take_take, List.length_append, hmin]
  omega

lemma pendingTags_mem {s : ParserState} {p : List Char × Nat} (hp : p ∈ pendingTags s) :
    p.1 = ARTIFACT_TAG_OPEN ∨ p.1 = ARTIFACT_TAG_CLOSE ∨ p.1 = CODE_TAG_OPEN ∨
    p.1 = CODE_TAG_CLOSE ∨ p.1 = CONFIG_TAG_OPEN ∨ p.1 = CONFIG_TAG_CLOSE := by
  unfold pendingTags at hp
  split_ifs at hp
  all_goals simp only [List.mem_cons, List.mem_singleton, List.not_mem_nil,
    or_false] at hp
  · rw [hp]; simp
  · rcases hp with rfl | rfl | rfl <;> simp
  · rw [hp]; simp
  · rw [hp]; simp

lemma gtFree_all : ∀ tag ∈ [ARTIFACT_TAG_OPEN, ARTIFACT_TAG_CLOSE, CODE_TAG_OPEN,
    CODE_TAG_CLOSE, CONFIG_TAG_OPEN, CONFIG_TAG_CLOSE],
    ∀ idx < tag.length - 1, (lowerL tag).get? idx ≠ some '>' := by decide

lemma ltFree_all : ∀ tag ∈ [ARTIFACT_TAG_OPEN, ARTIFACT_TAG_CLOSE, CODE_TAG_OPEN,
    CODE_TAG_CLOSE, CONFIG_TAG_OPEN, CONFIG_TAG_CLOSE],
    ∀ idx < tag.length - 1, 1 ≤ idx → (lowerL tag).get? idx ≠ some '<' := by decide

/-- Re-establish the no-partial invariant at a cursor placed right after a
`>` character: no tag's strict-prefix region contains `>`. -/
lemma J_of_gt (s : ParserState) {content : List Char} {q : Nat}
    (h1 : 1 ≤ q) (hL : q - 1 < content.length)
    (hgt : (content.get? (q - 1)).map Char.toLower = some '>') :
    JInv content q s := by
  intro p hp j _ hj
  refine no_psAt_of_char hgt (by omega) hL ?_
  intro idx _ h2
  rcases pendingTags_mem hp with h | h | h | h | h | h <;>
    { rw [h] at h2 ⊢; exact gtFree_all _ (by simp) idx h2 }

/-- Re-establish the no-partial invariant at the start of a fully matched
tag: every tag's `<` occurs only at offset 0. -/
lemma J_of_lt (s : ParserState) {content : List Char} {ts : Nat}
    (hL : ts < content.length)
    (hlt : (content.get? ts).map Char.toLower = some '<') :
    JInv content ts s := by
  intro p hp j _ hj
  refine no_psAt_of_char hlt (by omega) hL ?_
  intro idx hidx h2
  rcases pendingTags_mem hp with h | h | h | h | h | h <;>
    { rw [h] at h2 ⊢; exact ltFree_all _ (by simp) idx h2 (by omega) }

lemma get_lt_of_isTagAt {content tag : List Char} {ts : Nat}
    (h : isTagAt content ts tag = true) (h0 : (lowerL tag).get? 0 = some '<') :
    (content.get? ts).map Char.toLower = some '<' := by
  have hpos : 0 < tag.length := by
    by_contra hc
    push_neg at hc
    interval_cases htl : tag.length
    rw [List.length_eq_zero.mp htl] at h0
    simp [lowerL] at h0
  have := isTagAt_char h hpos
  rw [Nat.add_zero] at this
  rw [this, h0]

lemma get_gt_of_isTagAt {content tag : List Char} {ts : Nat}
    (h : isTagAt content ts tag = true)
    (hlast : (lowerL tag).get? (tag.length - 1) = some '>') (hne : 0 < tag.length) :
    (content.get? (ts + (tag.length - 1))).map Char.toLower = some '>' := by
  rw [isTagAt_char h (by omega), hlast]

lemma min?_mem_le {l : List Nat} {m : Nat} (h : l.min? = some m) :
    m ∈ l ∧ ∀ b ∈ l, m ≤ b := by
  cases l with
  | nil => simp [List.min?] at h
  | cons x xs =>
    simp only [List.min?] at h
    injection h with h
    subst h
    induction xs generalizing x with
    | nil => simp
    | cons y ys ih =>
      rw [List.foldl_cons]
      obtain ⟨hmem, hle⟩ := ih (min x y)
      refine ⟨?_, ?_⟩
      · rcases List.mem_cons.mp hmem with h | h
        · rcases Nat.le_total x y with hxy | hxy
          · rw [h, Nat.min_eq_left hxy]
            exact List.mem_cons_self _ _
          · rw [h, Nat.min_eq_right hxy]
            exact List.mem_cons_of_mem _ (List.mem_cons_self _ _)
        · exact List.mem_cons_of_mem _ (List.mem_cons_of_mem _ h)
      · intro b hb
        rcases List.mem_cons.mp hb with rfl | hb2
        · exact le_trans (hle _ (List.mem_cons_self _ _)) (Nat.min_le_left _ _)
        · rcases List.mem_cons.mp hb2 with rfl | hb3
          · exact le_trans (hle _ (List.mem_cons_self _ _)) (Nat.min_le_right _ _)
          · exact hle _ (List.mem_cons_of_mem _ hb3)

lemma completeArtifact_st (mid : List Char) (st : ParserState) (evs : List PEvent) :
    (completeArtifact mid st evs).1 = st ∨
    ((completeArtifact mid st evs).1.insideArtifact = false ∧
      (completeArtifact mid st evs).1.insideCode = false ∧
      (completeArtifact mid st evs).1.insideConfig = false) := by
  unfold completeArtifact
  cases st.currentArtifact with
  | none => exact Or.inl rfl
  | some ca => exact Or.inr ⟨rfl, rfl, rfl⟩

/-- The common shape of every partial-tag `break`: with no partial match of
`tag` in `[lb, pos)`, the cutoff returned by `getPartialTagStart` from `lb`
is `≥ pos`, `≤ content.length`, and below it there is no partial match. -/
lemma break_partial_inv {content tag : List Char} {pos lb : Nat}
    (hpos : pos ≤ content.length)
    (hJ : ∀ j, lb ≤ j → j < pos → ¬ psAt content j tag) :
    pos ≤ (getPartialTagStart content lb tag).getD content.length ∧
    (getPartialTagStart content lb tag).getD content.length ≤ content.length ∧
    ∀ j, lb ≤ j → j < (getPartialTagStart content lb tag).getD content.length →
      ¬ psAt content j tag := by
  cases h : getPartialTagStart content lb tag with
  | none =>
    refine ⟨hpos, le_refl _, ?_⟩
    intro j hj _
    exact getPartialTagStart_none_psAt h j hj
  | some v =>
    obtain ⟨hlb, hps⟩ := getPartialTagStart_psAt h
    have hvL : v < content.length := hps.1
    refine ⟨?_, by simp; omega, ?_⟩
    · simp only [Option.getD_some]
      by_contra hc
      push_neg at hc
      exact hJ v hlb hc hps
    · intro j hj1 hj2
      simp only [Option.getD_some] at hj2
      exact getPartialTagStart_min h j hj1 hj2

/-- Cursor and state of a loop step. -/
def stepPos : LoopStep → Nat := Sum.elim (fun r => r.1) (fun r => r.1)

/-- State component of a loop step. -/
def stepSt : LoopStep → ParserState := Sum.elim (fun r => r.2.1) (fun r => r.2.1)

lemma stepPos_inl (r : Nat × ParserState × List PEvent) : stepPos (Sum.inl r) = r.1 := rfl

lemma stepPos_inr (r : Nat × ParserState × List PEvent) : stepPos (Sum.inr r) = r.1 := rfl

lemma stepSt_inl (r : Nat × ParserState × List PEvent) : stepSt (Sum.inl r) = r.2.1 := rfl

lemma stepSt_inr (r : Nat × ParserState × List PEvent) : stepSt (Sum.inr r) = r.2.1 := rfl

lemma searchingIter_inv (mid content : List Char) (pos : Nat) (st : ParserState)
    (evs : List PEvent) (hpos : pos < content.length)
    (hA : st.insideArtifact = false) (hinv : LoopInv content pos st) :
    LoopInv content (stepPos (searchingIter mid content pos st evs))
      (stepSt (searchingIter mid content pos st evs)) ∧
    pos ≤ stepPos (searchingIter mid content pos st evs) := by
  obtain ⟨hF, hfc, hle, hJ⟩ := hinv
  have hpend : pendingTags st = [(ARTIFACT_TAG_OPEN, 0)] := by
    unfold pendingTags
    rw [hA]
    simp
  have hlen15 : ARTIFACT_TAG_OPEN.length = 15 := rfl
  cases hfti : findTagIndex content pos ARTIFACT_TAG_OPEN with
  | none =>
    have hJ0 : ∀ j, 0 ≤ j → j < pos → ¬ psAt content j ARTIFACT_TAG_OPEN := by
      intro j hj hjp
      exact hJ (ARTIFACT_TAG_OPEN, 0) (by rw [hpend]; simp) j hj hjp
    obtain ⟨h1, h2, h3⟩ := break_partial_inv (le_of_lt hpos) hJ0
    simp only [searchingIter, parseArtifactStart, hfti, Bool.not_false, if_true,
      Bool.false_eq_true, if_false, lt_self_iff_false, Option.toList_none,
      List.append_nil, stepPos_inl, stepSt_inl]
    refine ⟨⟨hF, hfc, h2, ?_⟩, h1⟩
    intro p hp j hlb hj
    rw [hpend] at hp
    simp only [List.mem_singleton] at hp
    subst hp
    exact h3 j (Nat.zero_le _) hj
  | some ts =>
    obtain ⟨hts, htag, _⟩ := findTagIndex_some_spec hfti
    have htsL : ts + 15 ≤ content.length := hlen15 ▸ isTagAt_le htag (by decide)
    cases hfte : findTagEnd content (ts + ARTIFACT_TAG_OPEN.length) with
    | none =>
      simp only [searchingIter, parseArtifactStart, hfti, hfte, Bool.not_false, if_true,
        Option.toList_none, List.append_nil, Option.getD_some, stepPos_inl, stepSt_inl]
      refine ⟨⟨hF, hfc, by omega, ?_⟩, hts⟩
      exact J_of_lt st (by omega) (get_lt_of_isTagAt htag (by decide))
    | some te =>
      obtain ⟨hte1, hte2, hte3⟩ := findTagEnd_spec hfte
      rw [hlen15] at hte1
      have hgt : (content.get? (te + 1 - 1)).map Char.toLower = some '>' := by
        simpa using hte3
      have hppos : pos < te + 1 := by omega
      have hstep : ∀ st' : ParserState, FlagsOk st' → st'.fullContent = content →
          LoopInv content (te + 1) st' ∧ pos ≤ te + 1 := by
        intro st' h1 h2
        exact ⟨⟨h1, h2, by omega, J_of_gt st' (by omega) (by omega) hgt⟩, by omega⟩
      by_cases hc1 :
          attrGet (parseAttributes (jsSlice content (ts + ARTIFACT_TAG_OPEN.length) te))
              "id".toList = [] ∨
            attrGet (parseAttributes (jsSlice content (ts + ARTIFACT_TAG_OPEN.length) te))
              "type".toList = [] ∨
            attrGet (parseAttributes (jsSlice content (ts + ARTIFACT_TAG_OPEN.length) te))
              "title".toList = []
      · simp only [searchingIter, parseArtifactStart, hfti, hfte, if_pos hc1,
          Bool.not_false, if_true, Bool.false_eq_true, if_false, if_pos hppos,
          stepPos_inr, stepSt_inr]
        exact hstep st hF hfc
      · by_cases hc2 :
            attrGet (parseAttributes (jsSlice content (ts + ARTIFACT_TAG_OPEN.length) te))
                "type".toList ≠ "react".toList ∧
              attrGet (parseAttributes (jsSlice content (ts + ARTIFACT_TAG_OPEN.length) te))
                "type".toList ≠ "component".toList
        · simp only [searchingIter, parseArtifactStart, hfti, hfte, if_neg hc1,
            if_pos hc2, Bool.not_false, if_true, Bool.false_eq_true, if_false,
            if_pos hppos, stepPos_inr, stepSt_inr]
          exact hstep st hF hfc
        · simp only [searchingIter, parseArtifactStart, hfti, hfte, if_neg hc1,
            if_neg hc2, Bool.not_true, Bool.false_eq_true, if_false,
            stepPos_inr, stepSt_inr]
          exact hstep _ ⟨fun h => ⟨rfl, (hF.1 h).2⟩, fun h => ⟨rfl, (hF.2 h).2⟩⟩ hfc

lemma completeArtifact_fullContent (mid : List Char) (st : ParserState)
    (evs : List PEvent) :
    (completeArtifact mid st evs).1.fullContent = st.fullContent := by
  unfold completeArtifact
  cases st.currentArtifact <;> rfl

lemma completeArtifact_flagsOk (mid : List Char) (st : ParserState)
    (evs : List PEvent) (hF : FlagsOk st) : FlagsOk (completeArtifact mid st evs).1 := by
  rcases completeArtifact_st mid st evs with h | ⟨h1, h2, h3⟩
  · rw [h]; exact hF
  · exact ⟨fun hc => absurd (h2 ▸ hc) (by simp), fun hc => absurd (h3 ▸ hc) (by simp)⟩

/-- The step taken after a found artifact-close tag: complete the artifact
and continue right past the close tag. -/
lemma close_step_inv (mid content : List Char) (pos ae : Nat) (st : ParserState)
    (evs : List PEvent) (hF : FlagsOk st) (hfc : st.fullContent = content)
    (hae : pos ≤ ae) (htag : isTagAt content ae ARTIFACT_TAG_CLOSE = true) :
    LoopInv content (ae + ARTIFACT_TAG_CLOSE.length) (completeArtifact mid st evs).1 ∧
    pos ≤ ae + ARTIFACT_TAG_CLOSE.length := by
  have hlen17 : ARTIFACT_TAG_CLOSE.length = 17 := rfl
  have haeL : ae + 17 ≤ content.length := hlen17 ▸ isTagAt_le htag (by decide)
  have hgt : (content.get? (ae + ARTIFACT_TAG_CLOSE.length - 1)).map Char.toLower =
      some '>' := by
    have h := get_gt_of_isTagAt htag (by decide) (by decide)
    rw [hlen17] at h ⊢
    exact h
  rw [hlen17] at hgt ⊢
  refine ⟨⟨completeArtifact_flagsOk mid st evs hF,
    (completeArtifact_fullContent mid st evs).trans hfc, by omega,
    J_of_gt _ (by omega) (by omega) hgt⟩, by omega⟩

lemma artifact_partial_some (content : List Char) (pos : Nat) (st : ParserState)
    (hpos : pos < content.length) (hF : FlagsOk st) (hfc : st.fullContent = content)
    (hpend : pendingTags st = [(CODE_TAG_OPEN, 0), (CONFIG_TAG_OPEN, 0),
      (ARTIFACT_TAG_CLOSE, 0)])
    (hJ : JInv content pos st) {m : Nat}
    (hmin : ([getPartialTagStart content 0 CODE_TAG_OPEN,
      getPartialTagStart content 0 CONFIG_TAG_OPEN,
      getPartialTagStart content 0 ARTIFACT_TAG_CLOSE].filterMap id).min? = some m) :
    LoopInv content m st ∧ pos ≤ m := by
  obtain ⟨hmem, hleall⟩ := min?_mem_le hmin
  have hJ1 : ∀ j, j < pos → ¬ psAt content j CODE_TAG_OPEN := fun j hj =>
    hJ (CODE_TAG_OPEN, 0) (by rw [hpend]; simp) j (Nat.zero_le _) hj
  have hJ2 : ∀ j, j < pos → ¬ psAt content j CONFIG_TAG_OPEN := fun j hj =>
    hJ (CONFIG_TAG_OPEN, 0) (by rw [hpend]; simp) j (Nat.zero_le _) hj
  have hJ3 : ∀ j, j < pos → ¬ psAt content j ARTIFACT_TAG_CLOSE := fun j hj =>
    hJ (ARTIFACT_TAG_CLOSE, 0) (by rw [hpend]; simp) j (Nat.zero_le _) hj
  have hmem2 : getPartialTagStart content 0 CODE_TAG_OPEN = some m ∨
      getPartialTagStart content 0 CONFIG_TAG_OPEN = some m ∨
      getPartialTagStart content 0 ARTIFACT_TAG_CLOSE = some m := by
    rcases List.mem_filterMap.mp hmem with ⟨a, ha, hid⟩
    simp only [List.mem_cons, List.not_mem_nil, or_false] at ha
    rcases ha with rfl | rfl | rfl
    · exact Or.inl hid
    · exact Or.inr (Or.inl hid)
    · exact Or.inr (Or.inr hid)
  have hlev : ∀ v : Nat, (getPartialTagStart content 0 CODE_TAG_OPEN = some v ∨
      getPartialTagStart content 0 CONFIG_TAG_OPEN = some v ∨
      getPartialTagStart content 0 ARTIFACT_TAG_CLOSE = some v) → m ≤ v := by
    intro v hv
    refine hleall v (List.mem_filterMap.mpr ⟨some v, ?_, rfl⟩)
    simp only [List.mem_cons, List.not_mem_nil, or_false]
    rcases hv with h | h | h
    · exact Or.inl h.symm
    · exact Or.inr (Or.inl h.symm)
    · exact Or.inr (Or.inr h.symm)
  have hmono : pos ≤ m ∧ m < content.length := by
    rcases hmem2 with h | h | h
    · obtain ⟨_, hps⟩ := getPartialTagStart_psAt h
      exact ⟨by by_contra hc; push_neg at hc; exact hJ1 m hc hps, hps.1⟩
    · obtain ⟨_, hps⟩ := getPartialTagStart_psAt h
      exact ⟨by by_contra hc; push_neg at hc; exact hJ2 m hc hps, hps.1⟩
    · obtain ⟨_, hps⟩ := getPartialTagStart_psAt h
      exact ⟨by by_contra hc; push_neg at hc; exact hJ3 m hc hps, hps.1⟩
  refine ⟨⟨hF, hfc, by omega, ?_⟩, hmono.1⟩
  intro p hp j hlb hj
  rw [hpend] at hp
  simp only [List.mem_cons, List.not_mem_nil, or_false] at hp
  rcases hp with rfl | rfl | rfl
  · cases hT : getPartialTagStart content 0 CODE_TAG_OPEN with
    | none => exact getPartialTagStart_none_psAt hT j (Nat.zero_le _)
    | some v =>
      exact getPartialTagStart_min hT j (Nat.zero_le _)
        (by have := hlev v (Or.inl hT); omega)
  · cases hT : getPartialTagStart content 0 CONFIG_TAG_OPEN with
    | none => exact getPartialTagStart_none_psAt hT j (Nat.zero_le _)
    | some v =>
      exact getPartialTagStart_min hT j (Nat.zero_le _)
        (by have := hlev v (Or.inr (Or.inl hT)); omega)
  · cases hT : getPartialTagStart content 0 ARTIFACT_TAG_CLOSE with
    | none => exact getPartialTagStart_none_psAt hT j (Nat.zero_le _)
    | some v =>
      exact getPartialTagStart_min hT j (Nat.zero_le _)
        (by have := hlev v (Or.inr (Or.inr hT)); omega)

lemma artifact_partial_none (content : List Char) (pos : Nat) (st : ParserState)
    (hpos : pos < content.length) (hF : FlagsOk st) (hfc : st.fullContent = content)
    (hpend : pendingTags st = [(CODE_TAG_OPEN, 0), (CONFIG_TAG_OPEN, 0),
      (ARTIFACT_TAG_CLOSE, 0)])
    (hmin : ([getPartialTagStart content 0 CODE_TAG_OPEN,
      getPartialTagStart content 0 CONFIG_TAG_OPEN,
      getPartialTagStart content 0 ARTIFACT_TAG_CLOSE].filterMap id).min? = none) :
    LoopInv content content.length st ∧ pos ≤ content.length := by
  have hnil : [getPartialTagStart content 0 CODE_TAG_OPEN,
      getPartialTagStart content 0 CONFIG_TAG_OPEN,
      getPartialTagStart content 0 ARTIFACT_TAG_CLOSE].filterMap id = [] := by
    cases hfm : [getPartialTagStart content 0 CODE_TAG_OPEN,
        getPartialTagStart content 0 CONFIG_TAG_OPEN,
        getPartialTagStart content 0 ARTIFACT_TAG_CLOSE].filterMap id with
    | nil => rfl
    | cons x xs => rw [hfm] at hmin; simp [List.min?] at hmin
  have hall := List.filterMap_eq_nil.mp hnil
  have h1 : getPartialTagStart content 0 CODE_TAG_OPEN = none := by
    have := hall _ (by simp : getPartialTagStart content 0 CODE_TAG_OPEN ∈ _)
    simpa using this
  have h2 : getPartialTagStart content 0 CONFIG_TAG_OPEN = none := by
    have := hall _ (by simp : getPartialTagStart content 0 CONFIG_TAG_OPEN ∈ _)
    simpa using this
  have h3 : getPartialTagStart content 0 ARTIFACT_TAG_CLOSE = none := by
    have := hall _ (by simp : getPartialTagStart content 0 ARTIFACT_TAG_CLOSE ∈ _)
    simpa using this
  refine ⟨⟨hF, hfc, le_refl _, ?_⟩, le_of_lt hpos⟩
  intro p hp j hlb hj
  rw [hpend] at hp
  simp only [List.mem_cons, List.not_mem_nil, or_false] at hp
  rcases hp with rfl | rfl | rfl
  · exact getPartialTagStart_none_psAt h1 j (Nat.zero_le _)
  · exact getPartialTagStart_none_psAt h2 j (Nat.zero_le _)
  · exact getPartialTagStart_none_psAt h3 j (Nat.zero_le _)

lemma artifactIter_inv (mid content : List Char) (pos : Nat) (st : ParserState)
    (evs : List PEvent) (hpos : pos < content.length)
    (hA : st.insideArtifact = true) (hC : st.insideCode = false)
    (hG : st.insideConfig = false) (hinv : LoopInv content pos st) :
    LoopInv content (stepPos (artifactIter mid content pos st evs))
      (stepSt (artifactIter mid content pos st evs)) ∧
    pos ≤ stepPos (artifactIter mid content pos st evs) := by
  obtain ⟨hF, hfc, hle, hJ⟩ := hinv
  have hpend : pendingTags st = [(CODE_TAG_OPEN, 0), (CONFIG_TAG_OPEN, 0),
      (ARTIFACT_TAG_CLOSE, 0)] := by
    unfold pendingTags
    rw [hA, hC, hG]
    simp
  have hlen11 : CODE_TAG_OPEN.length = 11 := rfl
  cases hfti : findTagIndex content pos CODE_TAG_OPEN with
  | some ts =>
    obtain ⟨hts, htag, _⟩ := findTagIndex_some_spec hfti
    have htsL : ts + 11 ≤ content.length := hlen11 ▸ isTagAt_le htag (by decide)
    cases hfte : findTagEnd content (ts + CODE_TAG_OPEN.length) with
    | none =>
      simp only [artifactIter, parseCodeStart, hfti, hfte, if_true, Option.getD_some,
        stepPos_inl, stepSt_inl]
      exact ⟨⟨hF, hfc, by omega, J_of_lt st (by omega)
        (get_lt_of_isTagAt htag (by decide))⟩, hts⟩
    | some te =>
      obtain ⟨hte1, hte2, hte3⟩ := findTagEnd_spec hfte
      rw [hlen11] at hte1
      have hgt : (content.get? (te + 1 - 1)).map Char.toLower = some '>' := by
        simpa using hte3
      simp only [artifactIter, parseCodeStart, hfti, hfte, Bool.false_eq_true,
        if_false, if_true, stepPos_inr, stepSt_inr]
      refine ⟨⟨⟨fun _ => ⟨hA, hG⟩, fun h =>
        absurd (show st.insideConfig = true from h) (by rw [hG]; simp)⟩,
        hfc, by omega, J_of_gt _ (by omega) (by omega) hgt⟩, by omega⟩
  | none =>
    rcases hac : findTagIndex content pos ARTIFACT_TAG_CLOSE with _ | a
    · -- no artifact close: the config guard is false, partial break
      rcases hcs : findTagIndex content pos CONFIG_TAG_OPEN with _ | c
      · rcases hmin : ([getPartialTagStart content 0 CODE_TAG_OPEN,
            getPartialTagStart content 0 CONFIG_TAG_OPEN,
            getPartialTagStart content 0 ARTIFACT_TAG_CLOSE].filterMap id).min?
            with _ | m
        · simp only [artifactIter, parseCodeStart, hfti, hcs, hac, hmin, jsIdx,
            Bool.false_eq_true, if_false, stepPos_inl, stepSt_inl]
          rw [if_neg (by simp)]
          simp only [hmin, stepPos_inl, stepSt_inl]
          exact artifact_partial_none content pos st hpos hF hfc hpend hmin
        · simp only [artifactIter, parseCodeStart, hfti, hcs, hac, hmin, jsIdx,
            Bool.false_eq_true, if_false, stepPos_inl, stepSt_inl]
          rw [if_neg (by simp)]
          simp only [hmin, stepPos_inl, stepSt_inl]
          exact artifact_partial_some content pos st hpos hF hfc hpend hJ hmin
      · rcases hmin : ([getPartialTagStart content 0 CODE_TAG_OPEN,
            getPartialTagStart content 0 CONFIG_TAG_OPEN,
            getPartialTagStart content 0 ARTIFACT_TAG_CLOSE].filterMap id).min?
            with _ | m
        · simp only [artifactIter, parseCodeStart, hfti, hcs, hac, hmin, jsIdx,
            Bool.false_eq_true, if_false, stepPos_inl, stepSt_inl]
          rw [if_neg (by intro hcon; omega)]
          simp only [hmin, stepPos_inl, stepSt_inl]
          exact artifact_partial_none content pos st hpos hF hfc hpend hmin
        · simp only [artifactIter, parseCodeStart, hfti, hcs, hac, hmin, jsIdx,
            Bool.false_eq_true, if_false, stepPos_inl, stepSt_inl]
          rw [if_neg (by intro hcon; omega)]
          simp only [hmin, stepPos_inl, stepSt_inl]
          exact artifact_partial_some content pos st hpos hF hfc hpend hJ hmin
    · obtain ⟨ha1, ha2, _⟩ := findTagIndex_some_spec hac
      rcases hcs : findTagIndex content pos CONFIG_TAG_OPEN with _ | c
      · -- guard false: complete the artifact
        simp only [artifactIter, parseCodeStart, hfti, hcs, hac, jsIdx,
          Bool.false_eq_true, if_false]
        rw [if_neg (by simp)]
        show LoopInv content
            (stepPos (Sum.inr (a + ARTIFACT_TAG_CLOSE.length,
              (completeArtifact mid st evs).1, (completeArtifact mid st evs).2))) _ ∧ _
        simp only [stepPos_inr, stepSt_inr]
        exact close_step_inv mid content pos a st evs hF hfc ha1 ha2
      · obtain ⟨hc1, hc2, _⟩ := findTagIndex_some_spec hcs
        by_cases hlt : c < a
        · -- enter the config block
          have hlen14 : CONFIG_TAG_OPEN.length = 14 := rfl
          have hcL : c + 14 ≤ content.length := hlen14 ▸ isTagAt_le hc2 (by decide)
          have hgtc : (content.get? (c + CONFIG_TAG_OPEN.length - 1)).map Char.toLower =
              some '>' := by
            have h := get_gt_of_isTagAt hc2 (by decide) (by decide)
            rw [hlen14] at h
            rw [hlen14, show c + 14 - 1 = c + (14 - 1) from by omega]
            exact h
          simp only [artifactIter, parseCodeStart, hfti, hcs, hac, jsIdx,
            Bool.false_eq_true, if_false, Option.getD_some]
          rw [if_pos ⟨by omega, by exact_mod_cast hlt⟩]
          simp only [stepPos_inr, stepSt_inr]
          refine ⟨⟨⟨fun h => absurd (show st.insideCode = true from h)
            (by rw [hC]; simp), fun _ => ⟨hA, hC⟩⟩,
            hfc, by rw [hlen14]; omega, ?_⟩, by rw [hlen14]; omega⟩
          exact J_of_gt _ (by rw [hlen14]; omega) (by rw [hlen14]; omega) hgtc
        · -- guard false: complete the artifact
          simp only [artifactIter, parseCodeStart, hfti, hcs, hac, jsIdx,
            Bool.false_eq_true, if_false]
          rw [if_neg (by intro hcon; exact hlt (by exact_mod_cast hcon.2))]
          show LoopInv content
              (stepPos (Sum.inr (a + ARTIFACT_TAG_CLOSE.length,
                (completeArtifact mid st evs).1, (completeArtifact mid st evs).2))) _ ∧ _
          simp only [stepPos_inr, stepSt_inr]
          exact close_step_inv mid content pos a st evs hF hfc ha1 ha2

lemma pendingTags_code (s : ParserState) (h1 : s.insideArtifact = true)
    (h2 : s.insideCode = true) (h3 : s.insideConfig = false) :
    pendingTags s =
      [(CODE_TAG_CLOSE, (s.currentCode.map (fun cc => cc.startPosition)).getD 0)] := by
  unfold pendingTags
  rw [h1, h2, h3]
  simp

lemma codeIter_inv (mid content : List Char) (pos : Nat) (st : ParserState)
    (evs : List PEvent) (hpos : pos < content.length)
    (hCo : st.insideCode = true) (hinv : LoopInv content pos st) :
    LoopInv content (stepPos (codeIter mid content pos st evs))
      (stepSt (codeIter mid content pos st evs)) ∧
    pos ≤ stepPos (codeIter mid content pos st evs) := by
  obtain ⟨hF, hfc, hle, hJ⟩ := hinv
  obtain ⟨hA, hG⟩ := hF.1 hCo
  have hpend := pendingTags_code st hA hCo hG
  have hlen13 : CODE_TAG_CLOSE.length = 13 := rfl
  have hFok : FlagsOk st := hF
  cases hfti : findTagIndex content pos CODE_TAG_CLOSE with
  | none =>
    have hJc : ∀ lb : Nat,
        (st.currentCode.map (fun cc => cc.startPosition)).getD 0 = lb →
        ∀ j, lb ≤ j → j < pos → ¬ psAt content j CODE_TAG_CLOSE := by
      intro lb hlb j h1 h2
      exact hJ (CODE_TAG_CLOSE, lb) (by rw [hpend, hlb]; simp) j h1 h2
    rcases hcc : st.currentCode with _ | cc
    · obtain ⟨h1, h2, h3⟩ :=
        break_partial_inv (le_of_lt hpos) (hJc 0 (by rw [hcc]; rfl))
      simp only [codeIter, hfti, hcc, stepPos_inl, stepSt_inl]
      refine ⟨⟨hFok, hfc, h2, ?_⟩, h1⟩
      intro p hp j hlb hj
      rw [hpend] at hp
      simp only [hcc, Option.map_none, Option.getD_none, List.mem_singleton] at hp
      subst hp
      exact h3 j hlb hj
    · obtain ⟨h1, h2, h3⟩ :=
        break_partial_inv (le_of_lt hpos) (hJc cc.startPosition (by rw [hcc]; rfl))
      rcases hca : st.currentArtifact with _ | ca
      · simp only [codeIter, hfti, hcc, hca, stepPos_inl, stepSt_inl]
        refine ⟨⟨hFok, hfc, h2, ?_⟩, h1⟩
        intro p hp j hlb hj
        rw [hpend] at hp
        simp only [hcc, Option.map_some, Option.getD_some, List.mem_singleton] at hp
        subst hp
        exact h3 j hlb hj
      · simp only [codeIter, hfti, hcc, hca, stepPos_inl, stepSt_inl]
        refine ⟨⟨⟨fun _ => ⟨hA, hG⟩, fun h => absurd (show st.insideConfig = true from h)
          (by rw [hG]; simp)⟩, hfc, h2, ?_⟩, h1⟩
        intro p hp j hlb hj
        obtain ⟨p1, p2⟩ := p
        unfold pendingTags at hp
        simp [hA, hCo, hG] at hp
        obtain ⟨rfl, rfl⟩ := hp
        exact h3 j hlb hj
  | some k =>
    obtain ⟨hk1, hk2, _⟩ := findTagIndex_some_spec hfti
    have hkL : k + 13 ≤ content.length := hlen13 ▸ isTagAt_le hk2 (by decide)
    have hgt : (content.get? (k + CODE_TAG_CLOSE.length - 1)).map Char.toLower =
        some '>' := by
      have h := get_gt_of_isTagAt hk2 (by decide) (by decide)
      rw [hlen13] at h
      rw [hlen13, show k + 13 - 1 = k + (13 - 1) from by omega]
      exact h
    have hcont : ∀ st2 : ParserState, st2.insideConfig = false →
        st2.fullContent = content →
        LoopInv content (k + CODE_TAG_CLOSE.length) { st2 with insideCode := false } ∧
        pos ≤ k + CODE_TAG_CLOSE.length := by
      intro st2 h3 h4
      refine ⟨⟨⟨fun h => absurd h (by simp), fun h =>
        absurd (show st2.insideConfig = true from h) (by rw [h3]; simp)⟩, h4,
        by rw [hlen13]; omega, J_of_gt _ (by rw [hlen13]; omega)
          (by rw [hlen13]; omega) hgt⟩, by rw [hlen13]; omega⟩
    have hcomp : ∀ ae : Nat, isTagAt content ae ARTIFACT_TAG_CLOSE = true →
        k + CODE_TAG_CLOSE.length - 1 ≤ ae →
        ∀ st2 : ParserState, st2.insideConfig = false → st2.fullContent = content →
        ∀ evs2 : List PEvent,
        LoopInv content (ae + ARTIFACT_TAG_CLOSE.length)
          (completeArtifact mid { st2 with insideCode := false } evs2).1 ∧
        pos ≤ ae + ARTIFACT_TAG_CLOSE.length := by
      intro ae htag hae st2 h3 h4 evs2
      have hF3 : FlagsOk { st2 with insideCode := false } :=
        ⟨fun h => absurd h (by simp), fun h =>
          absurd (show st2.insideConfig = true from h) (by rw [h3]; simp)⟩
      exact close_step_inv mid content pos ae _ evs2 hF3 h4
        (by rw [hlen13] at hae; omega) htag
    rcases hcc : st.currentCode with _ | cc <;>
      rcases hnp : (content.drop (k + CODE_TAG_CLOSE.length)).findIdx?
        (fun ch => !isJsSpace ch) with _ | j
    · rcases hfta : findTagIndex content (k + CODE_TAG_CLOSE.length - 1)
          ARTIFACT_TAG_CLOSE with _ | ae
      · simp only [codeIter, hfti, hcc, hnp, hfta, stepPos_inr, stepSt_inr]
        exact hcont { st with currentCode := none } hG hfc
      · obtain ⟨hae1, hae2, _⟩ := findTagIndex_some_spec hfta
        simp only [codeIter, hfti, hcc, hnp, hfta]
        show LoopInv content (stepPos (Sum.inr (ae + ARTIFACT_TAG_CLOSE.length, (completeArtifact mid { st with currentCode := none, insideCode := false } evs).1, (completeArtifact mid { st with currentCode := none, insideCode := false } evs).2))) _ ∧ _
        simp only [stepPos_inr, stepSt_inr]
        exact hcomp ae hae2 hae1 { st with currentCode := none } hG hfc evs
    · rcases hfta : findTagIndex content (k + CODE_TAG_CLOSE.length + j)
          ARTIFACT_TAG_CLOSE with _ | ae
      · simp only [codeIter, hfti, hcc, hnp, hfta, stepPos_inr, stepSt_inr]
        exact hcont { st with currentCode := none } hG hfc
      · obtain ⟨hae1, hae2, _⟩ := findTagIndex_some_spec hfta
        simp only [codeIter, hfti, hcc, hnp, hfta]
        show LoopInv content (stepPos (Sum.inr (ae + ARTIFACT_TAG_CLOSE.length, (completeArtifact mid { st with currentCode := none, insideCode := false } evs).1, (completeArtifact mid { st with currentCode := none, insideCode := false } evs).2))) _ ∧ _
        simp only [stepPos_inr, stepSt_inr]
        exact hcomp ae hae2 (by rw [hlen13] at hae1 ⊢; omega)
          { st with currentCode := none } hG hfc evs
    · rcases hfta : findTagIndex content (k + CODE_TAG_CLOSE.length - 1)
          ARTIFACT_TAG_CLOSE with _ | ae
      · simp only [codeIter, hfti, hcc, hnp, hfta, stepPos_inr, stepSt_inr]
        exact hcont { st with currentCode := some { cc with content := unescapeXML (jsSlice content cc.startPosition k) } } hG hfc
      · obtain ⟨hae1, hae2, _⟩ := findTagIndex_some_spec hfta
        simp only [codeIter, hfti, hcc, hnp, hfta]
        show LoopInv content (stepPos (Sum.inr (ae + ARTIFACT_TAG_CLOSE.length, (completeArtifact mid { st with currentCode := some { cc with content := unescapeXML (jsSlice content cc.startPosition k) }, insideCode := false } (evs ++ [PEvent.codeComplete cc.language (unescapeXML (jsSlice content cc.startPosition k))])).1, (completeArtifact mid { st with currentCode := some { cc with content := unescapeXML (jsSlice content cc.startPosition k) }, insideCode := false } (evs ++ [PEvent.codeComplete cc.language (unescapeXML (jsSlice content cc.startPosition k))])).2))) _ ∧ _
        simp only [stepPos_inr, stepSt_inr]
        exact hcomp ae hae2 hae1 { st with currentCode := some { cc with content := unescapeXML (jsSlice content cc.startPosition k) } } hG hfc (evs ++ [PEvent.codeComplete cc.language (unescapeXML (jsSlice content cc.startPosition k))])
    · rcases hfta : findTagIndex content (k + CODE_TAG_CLOSE.length + j)
          ARTIFACT_TAG_CLOSE with _ | ae
      · simp only [codeIter, hfti, hcc, hnp, hfta, stepPos_inr, stepSt_inr]
        exact hcont { st with currentCode := some { cc with content := unescapeXML (jsSlice content cc.startPosition k) } } hG hfc
      · obtain ⟨hae1, hae2, _⟩ := findTagIndex_some_spec hfta
        simp only [codeIter, hfti, hcc, hnp, hfta]
        show LoopInv content (stepPos (Sum.inr (ae + ARTIFACT_TAG_CLOSE.length, (completeArtifact mid { st with currentCode := some { cc with content := unescapeXML (jsSlice content cc.startPosition k) }, insideCode := false } (evs ++ [PEvent.codeComplete cc.language (unescapeXML (jsSlice content cc.startPosition k))])).1, (completeArtifact mid { st with currentCode := some { cc with content := unescapeXML (jsSlice content cc.startPosition k) }, insideCode := false } (evs ++ [PEvent.codeComplete cc.language (unescapeXML (jsSlice content cc.startPosition k))])).2))) _ ∧ _
        simp only [stepPos_inr, stepSt_inr]
        exact hcomp ae hae2 (by rw [hlen13] at hae1 ⊢; omega) { st with currentCode := some { cc with content := unescapeXML (jsSlice content cc.startPosition k) } } hG hfc (evs ++ [PEvent.codeComplete cc.language (unescapeXML (jsSlice content cc.startPosition k))])

lemma configIter_inv (mid content : List Char) (pos : Nat) (st : ParserState)
    (evs : List PEvent) (hpos : pos < content.length)
    (hCf : st.insideConfig = true) (hinv : LoopInv content pos st) :
    LoopInv content (stepPos (configIter mid content pos st evs))
      (stepSt (configIter mid content pos st evs)) ∧
    pos ≤ stepPos (configIter mid content pos st evs) := by
  obtain ⟨hF, hfc, hle, hJ⟩ := hinv
  obtain ⟨hA, hCo⟩ := hF.2 hCf
  have hpend : pendingTags st = [(CONFIG_TAG_CLOSE, 0)] := by
    unfold pendingTags
    rw [hA, hCo, hCf]
    simp
  have hlen15 : CONFIG_TAG_CLOSE.length = 15 := rfl
  cases hfti : findTagIndex content pos CONFIG_TAG_CLOSE with
  | none =>
    have hJc : ∀ j, 0 ≤ j → j < pos → ¬ psAt content j CONFIG_TAG_CLOSE := by
      intro j h1 h2
      exact hJ (CONFIG_TAG_CLOSE, 0) (by rw [hpend]; simp) j h1 h2
    obtain ⟨h1, h2, h3⟩ := break_partial_inv (le_of_lt hpos) hJc
    have hJnew : ∀ s2 : ParserState, s2.insideArtifact = true → s2.insideCode = false →
        s2.insideConfig = true →
        JInv content ((getPartialTagStart content 0 CONFIG_TAG_CLOSE).getD
          content.length) s2 := by
      intro s2 g1 g2 g3 p hp j hlb hj
      obtain ⟨p1, p2⟩ := p
      unfold pendingTags at hp
      rw [g1, g2, g3] at hp
      simp at hp
      obtain ⟨rfl, rfl⟩ := hp
      exact h3 j hlb hj
    rcases hcg : st.currentConfig with _ | cfg
    · simp only [configIter, hfti, hcg, stepPos_inl, stepSt_inl]
      exact ⟨⟨hF, hfc, h2, hJnew st hA hCo hCf⟩, h1⟩
    · simp only [configIter, hfti, hcg, stepPos_inl, stepSt_inl]
      exact ⟨⟨⟨fun h => absurd (show st.insideCode = true from h) (by rw [hCo]; simp),
        fun _ => ⟨hA, hCo⟩⟩, hfc, h2, hJnew _ hA hCo hCf⟩, h1⟩
  | some ce =>
    obtain ⟨hce1, hce2, _⟩ := findTagIndex_some_spec hfti
    have hceL : ce + 15 ≤ content.length := hlen15 ▸ isTagAt_le hce2 (by decide)
    have hgt : (content.get? (ce + CONFIG_TAG_CLOSE.length - 1)).map Char.toLower =
        some '>' := by
      have h := get_gt_of_isTagAt hce2 (by decide) (by decide)
      rw [hlen15] at h
      rw [hlen15, show ce + 15 - 1 = ce + (15 - 1) from by omega]
      exact h
    have hcont : ∀ st2 : ParserState, st2.insideCode = false →
        st2.fullContent = content →
        LoopInv content (ce + CONFIG_TAG_CLOSE.length)
          { st2 with insideConfig := false } ∧
        pos ≤ ce + CONFIG_TAG_CLOSE.length := by
      intro st2 h3 h4
      refine ⟨⟨⟨fun h => absurd (show st2.insideCode = true from h) (by rw [h3]; simp),
        fun h => absurd h (by simp)⟩, h4,
        by rw [hlen15]; omega, J_of_gt _ (by rw [hlen15]; omega)
          (by rw [hlen15]; omega) hgt⟩, by rw [hlen15]; omega⟩
    have hcomp : ∀ ae : Nat, isTagAt content ae ARTIFACT_TAG_CLOSE = true →
        ce + CONFIG_TAG_CLOSE.length ≤ ae →
        ∀ st2 : ParserState, st2.insideCode = false → st2.fullContent = content →
        ∀ evs2 : List PEvent,
        LoopInv content (ae + ARTIFACT_TAG_CLOSE.length)
          (completeArtifact mid { st2 with insideConfig := false } evs2).1 ∧
        pos ≤ ae + ARTIFACT_TAG_CLOSE.length := by
      intro ae htag hae st2 h3 h4 evs2
      have hF3 : FlagsOk { st2 with insideConfig := false } :=
        ⟨fun h => absurd (show st2.insideCode = true from h) (by rw [h3]; simp),
          fun h => absurd h (by simp)⟩
      exact close_step_inv mid content pos ae _ evs2 hF3 h4
        (by rw [hlen15] at hae; omega) htag
    rcases hcg : st.currentConfig with _ | cfg
    · rcases hfta : findTagIndex content (ce + CONFIG_TAG_CLOSE.length)
          ARTIFACT_TAG_CLOSE with _ | ae
      · simp only [configIter, hfti, hcg, hfta, stepPos_inr, stepSt_inr]
        exact hcont { st with currentConfig := none } hCo hfc
      · obtain ⟨hae1, hae2, _⟩ := findTagIndex_some_spec hfta
        by_cases heq : ae = ce + CONFIG_TAG_CLOSE.length
        · simp only [configIter, hfti, hcg, hfta, if_pos heq]
          show LoopInv content (stepPos (Sum.inr (ae + ARTIFACT_TAG_CLOSE.length, (completeArtifact mid { st with currentConfig := none, insideConfig := false } evs).1, (completeArtifact mid { st with currentConfig := none, insideConfig := false } evs).2))) _ ∧ _
          simp only [stepPos_inr, stepSt_inr]
          exact hcomp ae hae2 (le_of_eq heq.symm) { st with currentConfig := none } hCo hfc evs
        · simp only [configIter, hfti, hcg, hfta, if_neg heq, stepPos_inr, stepSt_inr]
          exact hcont { st with currentConfig := none } hCo hfc
    · rcases hfta : findTagIndex content (ce + CONFIG_TAG_CLOSE.length)
          ARTIFACT_TAG_CLOSE with _ | ae
      · simp only [configIter, hfti, hcg, hfta, stepPos_inr, stepSt_inr]
        exact hcont { st with currentConfig := some ⟨jsSlice content pos ce⟩ } hCo hfc
      · obtain ⟨hae1, hae2, _⟩ := findTagIndex_some_spec hfta
        by_cases heq : ae = ce + CONFIG_TAG_CLOSE.length
        · simp only [configIter, hfti, hcg, hfta, if_pos heq]
          show LoopInv content (stepPos (Sum.inr (ae + ARTIFACT_TAG_CLOSE.length, (completeArtifact mid { st with currentConfig := some ⟨jsSlice content pos ce⟩, insideConfig := false } evs).1, (completeArtifact mid { st with currentConfig := some ⟨jsSlice content pos ce⟩, insideConfig := false } evs).2))) _ ∧ _
          simp only [stepPos_inr, stepSt_inr]
          exact hcomp ae hae2 (le_of_eq heq.symm)
            { st with currentConfig := some ⟨jsSlice content pos ce⟩ } hCo hfc evs
        · simp only [configIter, hfti, hcg, hfta, if_neg heq, stepPos_inr, stepSt_inr]
          exact hcont { st with currentConfig := some ⟨jsSlice content pos ce⟩ } hCo hfc

lemma loopIter_inv (mid content : List Char) (pos : Nat) (st : ParserState)
    (evs : List PEvent) (hpos : pos < content.length) (hinv : LoopInv content pos st) :
    LoopInv content (stepPos (loopIter mid content pos st evs))
      (stepSt (loopIter mid content pos st evs)) ∧
    pos ≤ stepPos (loopIter mid content pos st evs) := by
  have hF := hinv.1
  cases hA : st.insideArtifact with
  | false =>
    have h := searchingIter_inv mid content pos st evs hpos hA hinv
    simpa only [loopIter, hA, Bool.not_false, if_true] using h
  | true =>
    cases hCo : st.insideCode with
    | true =>
      have hCf : st.insideConfig = false := (hF.1 hCo).2
      have h := codeIter_inv mid content pos st evs hpos hCo hinv
      simpa only [loopIter, hA, hCo, hCf, Bool.not_true, Bool.not_false,
        Bool.and_false, Bool.false_and, Bool.and_true, Bool.true_and,
        Bool.false_eq_true, if_false, if_true] using h
    | false =>
      cases hCf : st.insideConfig with
      | false =>
        have h := artifactIter_inv mid content pos st evs hpos hA hCo hCf hinv
        simpa only [loopIter, hA, hCo, hCf, Bool.not_true, Bool.not_false,
          Bool.and_false, Bool.false_and, Bool.and_true, Bool.true_and,
          Bool.false_eq_true, if_false, if_true] using h
      | true =>
        have h := configIter_inv mid content pos st evs hpos hCf hinv
        simpa only [loopIter, hA, hCo, hCf, Bool.not_true, Bool.not_false,
          Bool.and_false, Bool.false_and, Bool.and_true, Bool.true_and,
          Bool.false_eq_true, if_false, if_true] using h

lemma parseLoop_inv (mid content : List Char) :
    ∀ (fuel pos : Nat) (st : ParserState) (evs : List PEvent),
      LoopInv content pos st →
      LoopInv content (parseLoop mid content pos st evs fuel).1
        (parseLoop mid content pos st evs fuel).2.1 ∧
      pos ≤ (parseLoop mid content pos st evs fuel).1 := by
  intro fuel
  induction fuel with
  | zero =>
    intro pos st evs h
    exact ⟨h, le_refl _⟩
  | succ fuel ih =>
    intro pos st evs h
    by_cases hpos : pos < content.length
    · have hli := loopIter_inv mid content pos st evs hpos h
      cases hstep : loopIter mid content pos st evs with
      | inl r =>
        rw [hstep, stepPos_inl, stepSt_inl] at hli
        simp only [parseLoop, if_pos hpos, hstep]
        exact hli
      | inr r =>
        obtain ⟨p2, st2, evs2⟩ := r
        rw [hstep, stepPos_inr, stepSt_inr] at hli
        simp only [parseLoop, if_pos hpos, hstep]
        have hrec := ih p2 st2 evs2 hli.1
        exact ⟨hrec.1, le_trans hli.2 hrec.2⟩
    · simp only [parseLoop, if_neg hpos]
      exact ⟨h, le_refl _⟩

lemma pendingTags_congr (s1 s2 : ParserState)
    (h1 : s1.insideArtifact = s2.insideArtifact) (h2 : s1.insideCode = s2.insideCode)
    (h3 : s1.insideConfig = s2.insideConfig) (h4 : s1.currentCode = s2.currentCode) :
    pendingTags s1 = pendingTags s2 := by
  unfold pendingTags
  rw [h1, h2, h3, h4]

lemma pendingTags_fullContent (s : ParserState) (fc : List Char) :
    pendingTags { s with fullContent := fc } = pendingTags s :=
  pendingTags_congr _ _ rfl rfl rfl rfl

lemma pendingTags_position (s : ParserState) (p : Nat) :
    pendingTags { s with position := p } = pendingTags s :=
  pendingTags_congr _ _ rfl rfl rfl rfl

/-- The per-state invariant between `parse` calls: the flag implications
and the cursor bound, plus the absence of partial pending-tag matches
below the cursor (what the next call's searches rely on). -/
def StInv (s : ParserState) : Prop :=
  FlagsOk s ∧ s.position ≤ s.fullContent.length ∧ JInv s.fullContent s.position s

lemma parse_inv (s : ParserState) (frag : List Char) (h : StInv s) :
    StInv (parse s frag).1 ∧ s.position ≤ (parse s frag).1.position := by
  obtain ⟨hF, hle, hJ⟩ := h
  have hinv0 : LoopInv (s.fullContent ++ frag) s.position
      { s with fullContent := s.fullContent ++ frag } := by
    refine ⟨⟨fun h => hF.1 h, fun h => hF.2 h⟩, rfl, ?_, ?_⟩
    · rw [List.length_append]; omega
    · intro p hp j hlb hj
      rw [pendingTags_fullContent] at hp
      intro hps
      exact hJ p hp j hlb hj (psAt_extend hps (by omega))
  have hpl := parseLoop_inv s.messageId (s.fullContent ++ frag)
    ((s.fullContent ++ frag).length + 1) s.position
    { s with fullContent := s.fullContent ++ frag } [] hinv0
  rw [parse_eval]
  obtain ⟨⟨hF2, hfc2, hle2, hJ2⟩, hmono⟩ := hpl
  refine ⟨⟨⟨fun h => hF2.1 h, fun h => hF2.2 h⟩, ?_, ?_⟩, hmono⟩
  · show (parseLoop _ _ _ _ _ _).1 ≤ (parseLoop _ _ _ _ _ _).2.1.fullContent.length
    rw [hfc2]
    exact hle2
  · show JInv _ (parseLoop _ _ _ _ _ _).1 _
    rw [show ({ (parseLoop s.messageId (s.fullContent ++ frag) s.position
        { s with fullContent := s.fullContent ++ frag } []
        ((s.fullContent ++ frag).length + 1)).2.1 with
        position := (parseLoop s.messageId (s.fullContent ++ frag) s.position
        { s with fullContent := s.fullContent ++ frag } []
        ((s.fullContent ++ frag).length + 1)).1 } : ParserState).fullContent =
      (parseLoop s.messageId (s.fullContent ++ frag) s.position
        { s with fullContent := s.fullContent ++ frag } []
        ((s.fullContent ++ frag).length + 1)).2.1.fullContent from rfl, hfc2]
    intro p hp j hlb hj
    rw [pendingTags_position] at hp
    exact hJ2 p hp j hlb hj

/-- The parser states reachable on one message: the fresh state, closed
under arbitrary `parse` calls. -/
inductive Reachable : List Char → ParserState → Prop
  | init (mid : List Char) : Reachable mid (initState mid)
  | step {mid : List Char} {s : ParserState} (frag : List Char) :
      Reachable mid s → Reachable mid (parse s frag).1

lemma reachable_stInv {mid : List Char} {s : ParserState} (h : Reachable mid s) :
    StInv s := by
  induction h with
  | init =>
    refine ⟨⟨fun h => by simp [initState] at h, fun h => by simp [initState] at h⟩,
      le_refl _, ?_⟩
    intro p hp j hlb hj
    exact absurd hj (by simp [initState])
  | step frag hr ih => exact (parse_inv _ frag ih).1

/-- Claim C8: ParseState invariants.  In every per-message state reachable
through any sequence of `parse` calls from a fresh state, `insideCode` and
`insideConfig` are never simultaneously true, each of them being true
implies `insideArtifact` is true, the saved cursor `position` never
exceeds the length of the accumulated full-content buffer, and the next
`parse` call — with any fragment — never decreases it. -/
theorem C8_parse_state_invariants (mid : List Char) (s : ParserState)
    (hs : Reachable mid s) :
    ¬ (s.insideCode = true ∧ s.insideConfig = true) ∧
    (s.insideCode = true → s.insideArtifact = true) ∧
    (s.insideConfig = true → s.insideArtifact = true) ∧
    s.position ≤ s.fullContent.length ∧
    ∀ frag : List Char, s.position ≤ (parse s frag).1.position := by
  obtain ⟨hF, hle, hJ⟩ := reachable_stInv hs
  refine ⟨?_, fun h => (hF.1 h).1, fun h => (hF.2 h).1, hle, fun frag =>
    (parse_inv s frag ⟨hF, hle, hJ⟩).2⟩
  rintro ⟨h1, h2⟩
  have hcf := (hF.1 h1).2
  rw [hcf] at h2
  exact absurd h2 (by simp)

/-- Claim C8, witness: the invariants instantiated at the state reached by
parsing the fragment `<canvasArt` on a fresh state (a reachable state by
one `parse` step). -/
theorem C8_parse_state_invariants_witness :
    ¬ (((parse (initState "m".toList) "<canvasArt".toList).1).insideCode = true ∧
        ((parse (initState "m".toList) "<canvasArt".toList).1).insideConfig = true) ∧
    (((parse (initState "m".toList) "<canvasArt".toList).1).insideCode = true →
      ((parse (initState "m".toList) "<canvasArt".toList).1).insideArtifact = true) ∧
    (((parse (initState "m".toList) "<canvasArt".toList).1).insideConfig = true →
      ((parse (initState "m".toList) "<canvasArt".toList).1).insideArtifact = true) ∧
    ((parse (initState "m".toList) "<canvasArt".toList).1).position ≤
      ((parse (initState "m".toList) "<canvasArt".toList).1).fullContent.length ∧
    ∀ frag : List Char,
      ((parse (initState "m".toList) "<canvasArt".toList).1).position ≤
        (parse (parse (initState "m".toList) "<canvasArt".toList).1 frag).1.position :=
  C8_parse_state_invariants "m".toList _
    (Reachable.step "<canvasArt".toList (Reachable.init "m".toList))
